import Mathlib

/-!
Verification of the plan-validation core of the repository: the
Canonicalizer (app/core/canonicalize.py), the Graph IR
(app/engine/graph.py), the Builder (app/engine/builder.py), the Rule
Evaluators (app/engine/evaluators.py) and the DFR generator
(app/engine/dfr.py), shallowly embedded in Lean.

Modelling conventions, fixed once for the whole file:
- JSON-like Python data is the inductive type `Json` below (numbers are
  integers; the engine never produces floats in the probed positions).
- Python dicts are association lists in insertion order; dicts obtained
  from JSON input have pairwise distinct keys.
- Python string operations (str, repr, upper, <, ==, sort) are modelled
  character-exactly on the printable ASCII range. `pyRepr` models the
  CPython repr of strings without escaping; it is character-exact for
  strings made of printable ASCII characters other than the single quote
  and the backslash, which is recorded by the `cleanStr` predicate and
  carried as a hypothesis wherever repr fidelity matters.
- `sorted(xs, key=f)` with the bare try/except fallback of
  sort_lists_in_plan is modelled as: the stable sort by `f` when every
  pair of keys is comparable under the Python `<` used there, and the
  stable sort by `str(x)` otherwise (CPython raises TypeError on the
  first incomparable comparison it actually performs; for two or more
  elements an incomparable pair is always hit by adjacent-run detection,
  and for fewer the two branches coincide).
- Property maps and metadata maps carry string values: these are the
  only shapes the engine ever probes with .get/.upper, and non-string
  values there would crash the Python engine rather than return.
-/

/-- JSON-like Python value: None, bool, int, str, list, dict. -/
inductive Json where
  | null : Json
  | bool (b : Bool) : Json
  | num (n : Int) : Json
  | str (s : String) : Json
  | arr (elems : List Json) : Json
  | obj (fields : List (String × Json)) : Json

mutual

def jbeq : Json → Json → Bool
  | .null, .null => true
  | .bool a, .bool b => a == b
  | .num a, .num b => a == b
  | .str a, .str b => a == b
  | .arr a, .arr b => jbeqL a b
  | .obj a, .obj b => jbeqF a b
  | _, _ => false

def jbeqL : List Json → List Json → Bool
  | [], [] => true
  | x :: xs, y :: ys => jbeq x y && jbeqL xs ys
  | _, _ => false

def jbeqF : List (String × Json) → List (String × Json) → Bool
  | [], [] => true
  | (k, v) :: xs, (k2, v2) :: ys => k == k2 && jbeq v v2 && jbeqF xs ys
  | _, _ => false

end

mutual

theorem jbeq_eq : ∀ a b : Json, jbeq a b = true → a = b
  | .null, .null, _ => rfl
  | .bool a, .bool b, h => by simp [jbeq] at h; simp [h]
  | .num a, .num b, h => by simp [jbeq] at h; simp [h]
  | .str a, .str b, h => by simp [jbeq] at h; simp [h]
  | .arr a, .arr b, h => by
      rw [jbeq] at h
      exact congrArg Json.arr (jbeqL_eq a b h)
  | .obj a, .obj b, h => by
      rw [jbeq] at h
      exact congrArg Json.obj (jbeqF_eq a b h)
  | .null, .bool _, h => by simp [jbeq] at h
  | .null, .num _, h => by simp [jbeq] at h
  | .null, .str _, h => by simp [jbeq] at h
  | .null, .arr _, h => by simp [jbeq] at h
  | .null, .obj _, h => by simp [jbeq] at h
  | .bool _, .null, h => by simp [jbeq] at h
  | .bool _, .num _, h => by simp [jbeq] at h
  | .bool _, .str _, h => by simp [jbeq] at h
  | .bool _, .arr _, h => by simp [jbeq] at h
  | .bool _, .obj _, h => by simp [jbeq] at h
  | .num _, .null, h => by simp [jbeq] at h
  | .num _, .bool _, h => by simp [jbeq] at h
  | .num _, .str _, h => by simp [jbeq] at h
  | .num _, .arr _, h => by simp [jbeq] at h
  | .num _, .obj _, h => by simp [jbeq] at h
  | .str _, .null, h => by simp [jbeq] at h
  | .str _, .bool _, h => by simp [jbeq] at h
  | .str _, .num _, h => by simp [jbeq] at h
  | .str _, .arr _, h => by simp [jbeq] at h
  | .str _, .obj _, h => by simp [jbeq] at h
  | .arr _, .null, h => by simp [jbeq] at h
  | .arr _, .bool _, h => by simp [jbeq] at h
  | .arr _, .num _, h => by simp [jbeq] at h
  | .arr _, .str _, h => by simp [jbeq] at h
  | .arr _, .obj _, h => by simp [jbeq] at h
  | .obj _, .null, h => by simp [jbeq] at h
  | .obj _, .bool _, h => by simp [jbeq] at h
  | .obj _, .num _, h => by simp [jbeq] at h
  | .obj _, .str _, h => by simp [jbeq] at h
  | .obj _, .arr _, h => by simp [jbeq] at h

theorem jbeqL_eq : ∀ a b : List Json, jbeqL a b = true → a = b
  | [], [], _ => rfl
  | x :: xs, y :: ys, h => by
      rw [jbeqL, Bool.and_eq_true] at h
      rw [jbeq_eq x y h.1, jbeqL_eq xs ys h.2]
  | [], _ :: _, h => by simp [jbeqL] at h
  | _ :: _, [], h => by simp [jbeqL] at h

theorem jbeqF_eq : ∀ a b : List (String × Json), jbeqF a b = true → a = b
  | [], [], _ => rfl
  | (k, v) :: xs, (k2, v2) :: ys, h => by
      rw [jbeqF, Bool.and_eq_true, Bool.and_eq_true] at h
      obtain ⟨⟨h1, h2⟩, h3⟩ := h
      rw [eq_of_beq h1, jbeq_eq v v2 h2, jbeqF_eq xs ys h3]
  | [], _ :: _, h => by simp [jbeqF] at h
  | _ :: _, [], h => by simp [jbeqF] at h

end

mutual

theorem jbeq_rfl : ∀ a : Json, jbeq a a = true
  | .null => rfl
  | .bool a => by simp [jbeq]
  | .num a => by simp [jbeq]
  | .str a => by simp [jbeq]
  | .arr a => by rw [jbeq]; exact jbeqL_rfl a
  | .obj a => by rw [jbeq]; exact jbeqF_rfl a

theorem jbeqL_rfl : ∀ a : List Json, jbeqL a a = true
  | [] => rfl
  | x :: xs => by rw [jbeqL, Bool.and_eq_true]; exact ⟨jbeq_rfl x, jbeqL_rfl xs⟩

theorem jbeqF_rfl : ∀ a : List (String × Json), jbeqF a a = true
  | [] => rfl
  | (k, v) :: xs => by
      rw [jbeqF, Bool.and_eq_true, Bool.and_eq_true]
      exact ⟨⟨by simp, jbeq_rfl v⟩, jbeqF_rfl xs⟩

end

instance : DecidableEq Json := fun a b =>
  if h : jbeq a b = true then .isTrue (jbeq_eq a b h)
  else .isFalse (fun he => h (he ▸ jbeq_rfl a))

/-! ### Character and string order, Python style (code-point lexicographic) -/

/-- Code-point comparison of characters, as CPython compares str by code point. -/
def charLtB (a b : Char) : Bool := a.toNat < b.toNat

/-- Lexicographic strict order on character lists (Python str less-than). -/
def lexLtB : List Char → List Char → Bool
  | [], [] => false
  | [], _ :: _ => true
  | _ :: _, [] => false
  | a :: as, b :: bs => charLtB a b || (a == b && lexLtB as bs)

/-- Python strict less-than on strings. -/
def strLtB (a b : String) : Bool := lexLtB a.toList b.toList

/-- Python less-or-equal on strings (negation of the reverse strict order). -/
def strLeB (a b : String) : Bool := !(strLtB b a)

/-- Python str.upper restricted to ASCII letters, matching the engine inputs. -/
def strUpper (s : String) : String := String.mk (s.toList.map Char.toUpper)

/-- Python truthiness of an optional string: present and non-empty. -/
def truthy : Option String → Bool
  | none => false
  | some s => s ≠ ""

/-- Lookup in a Python dict modelled as an association list. -/
def dget {α : Type} (m : List (String × α)) (k : String) : Option α :=
  (m.find? (fun p => p.1 == k)).map Prod.snd

/-- Python dict .get with a default value. -/
def dgetD {α : Type} (m : List (String × α)) (k : String) (d : α) : α :=
  (dget m k).getD d

/-- Python dict update: base entries keep their position, with values
overridden by the update map; new keys are appended in order. This is the
semantics of a dict display with a final double-star expansion. -/
def dictMerge {α : Type} (base upd : List (String × α)) : List (String × α) :=
  base.map (fun p => (p.1, dgetD upd p.1 p.2)) ++
    upd.filter (fun p => (dget base p.1).isNone)

/-! ### Python value semantics: equality, order, str and repr -/

/-- Numeric view used by Python for comparing bool and int together
(True compares as 1, False as 0). -/
def numView : Json → Option Int
  | .bool b => some (if b then 1 else 0)
  | .num n => some n
  | _ => none

mutual

/-- Python equality on JSON-like values: numeric across bool/int, structural
on lists and dicts, False across unrelated types, never an error. -/
def pyEq : Json → Json → Bool
  | .null, .null => true
  | .str a, .str b => a == b
  | .arr a, .arr b => pyEqL a b
  | .obj a, .obj b => pyEqF a b
  | a, b =>
    match numView a, numView b with
    | some x, some y => x == y
    | _, _ => false

def pyEqL : List Json → List Json → Bool
  | [], [] => true
  | x :: xs, y :: ys => pyEq x y && pyEqL xs ys
  | _, _ => false

/-- Python dict equality compares key sets and the values at each key; on
dicts coming from JSON (distinct keys) this matches comparing the two
association lists up to key lookup. -/
def pyEqF : List (String × Json) → List (String × Json) → Bool
  | a, b =>
    (a.map Prod.fst).all (fun k => decide (k ∈ b.map Prod.fst)) &&
    (b.map Prod.fst).all (fun k => decide (k ∈ a.map Prod.fst)) &&
    pyEqV a b

def pyEqV : List (String × Json) → List (String × Json) → Bool
  | [], _ => true
  | (k, v) :: xs, b =>
    (match dget b k with
     | some w => pyEq v w
     | none => false) && pyEqV xs b

end

mutual

/-- Python strict less-than on JSON-like values; `none` models a TypeError.
Numbers and booleans compare numerically, strings by code point, lists
lexicographically (using pyEq to skip equal heads); everything else,
including None and dicts, is unorderable. -/
def pyLt : Json → Json → Option Bool
  | .str a, .str b => some (strLtB a b)
  | .arr a, .arr b => pyLtL a b
  | a, b =>
    match numView a, numView b with
    | some x, some y => some (decide (x < y))
    | _, _ => none

def pyLtL : List Json → List Json → Option Bool
  | [], [] => some false
  | [], _ :: _ => some true
  | _ :: _, [] => some false
  | x :: xs, y :: ys =>
    if pyEq x y then pyLtL xs ys else pyLt x y

end

mutual

/-- CPython repr of a JSON-like value, as a character list. String content
is emitted between single quotes without escaping: exact for clean strings
(see `cleanStr`). -/
def pyRepr : Json → List Char
  | .null => "None".toList
  | .bool true => "True".toList
  | .bool false => "False".toList
  | .num n => (toString n).toList
  | .str s => '\'' :: s.toList ++ ['\'']
  | .arr l => '[' :: pyReprElems l ++ [']']
  | .obj l => '{' :: pyReprFields l ++ ['}']

def pyReprElems : List Json → List Char
  | [] => []
  | [x] => pyRepr x
  | x :: y :: xs => pyRepr x ++ (", ".toList ++ pyReprElems (y :: xs))

def pyReprFields : List (String × Json) → List Char
  | [] => []
  | [(k, v)] => '\'' :: k.toList ++ ['\''] ++ ": ".toList ++ pyRepr v
  | (k, v) :: y :: xs =>
    ('\'' :: k.toList ++ ['\''] ++ ": ".toList ++ pyRepr v) ++
      (", ".toList ++ pyReprFields (y :: xs))

end

/-- CPython str of a JSON-like value: the string itself for str, repr
otherwise, as a character list. -/
def pyStr : Json → List Char
  | .str s => s.toList
  | x => pyRepr x

/-- CPython str of a JSON-like value, as a string. -/
def pyStrS (x : Json) : String := String.mk (pyStr x)

/-! ### Stable sorting (CPython sorted/list.sort are stable) -/

/-- Insert an element into a sorted list, before the first element it is
le-related to: combined with `insSort` folding from the right this yields
a stable sort, equal elements keeping their input order. -/
def ordInsert {α : Type} (le : α → α → Bool) (a : α) : List α → List α
  | [] => [a]
  | b :: l => if le a b then a :: b :: l else b :: ordInsert le a l

/-- Stable sort by a boolean le relation, modelling CPython sorted. -/
def insSort {α : Type} (le : α → α → Bool) : List α → List α
  | [] => []
  | a :: l => ordInsert le a (insSort le l)

/-! ### The Canonicalizer: app/core/canonicalize.py -/

/-- Sort key used by sort_lists_in_plan for list elements: the raw value of
the id field when the element is a dict carrying one, otherwise the Python
str of the element (wrapped as a Json string so keys share one type). -/
def sortKey (x : Json) : Json :=
  match x with
  | .obj fields =>
    match dget fields "id" with
    | some v => v
    | none => .str (pyStrS x)
  | _ => .str (pyStrS x)

/-- Whether every pair of sort keys of the list is comparable under the
Python less-than; when not, the bare except of sort_lists_in_plan falls
back to sorting by str(x). -/
def allComparable (l : List Json) : Bool :=
  l.all (fun a => l.all (fun b => (pyLt (sortKey a) (sortKey b)).isSome))

/-- Python le on sort keys, defined from strict less-than as sorted does. -/
def keyLeB (a b : Json) : Bool := !((pyLt (sortKey b) (sortKey a)).getD false)

/-- Fallback le of the except branch: sort by str(x). -/
def strKeyLeB (a b : Json) : Bool := strLeB (pyStrS a) (pyStrS b)

/-- The list branch of sort_lists_in_plan: try sorting by the id/str key,
falling back to sorting by str(x) when keys are incomparable. -/
def pySorted (l : List Json) : List Json :=
  if allComparable l then insSort keyLeB l else insSort strKeyLeB l

/-- Tuple comparison of dict items by key, as sorted(plan.items()) orders
them (keys of a Python dict are pairwise distinct, so the value component
is never reached). -/
def pairLeB (p q : String × Json) : Bool := strLeB p.1 q.1

mutual

/-- Model of sort_lists_in_plan: recursively sort dict items
lexicographically by key and sort lists by the id/str key with the
fallback, leaving scalars unchanged. The source sorts the items first and
then recurses into each value; since the stable item sort looks only at
keys and the recursion rewrites only values, recursing first and sorting
after is the same function, and keeps the recursion structural. -/
def sort_lists_in_plan : Json → Json
  | .obj fields => .obj (insSort pairLeB (canonFields fields))
  | .arr elems => .arr (pySorted (canonElems elems))
  | .null => .null
  | .bool b => .bool b
  | .num n => .num n
  | .str s => .str s

def canonFields : List (String × Json) → List (String × Json)
  | [] => []
  | (k, v) :: xs => (k, sort_lists_in_plan v) :: canonFields xs

def canonElems : List Json → List Json
  | [] => []
  | x :: xs => sort_lists_in_plan x :: canonElems xs

end

/-- Lowercase hexadecimal digit. -/
def hexDigit (n : Nat) : Char :=
  if n < 10 then Char.ofNat (48 + n) else Char.ofNat (87 + n)

/-- Four lowercase hex digits, as json.dumps emits in escapes. -/
def hex4 (n : Nat) : List Char :=
  [hexDigit (n / 4096 % 16), hexDigit (n / 256 % 16),
   hexDigit (n / 16 % 16), hexDigit (n % 16)]

/-- Escape of one character inside a JSON string, following json.dumps with
its default ensure_ascii=True. -/
def jsonEscapeChar (c : Char) : List Char :=
  if c = '"' then ['\\', '"']
  else if c = '\\' then ['\\', '\\']
  else if c = Char.ofNat 8 then ['\\', 'b']
  else if c = Char.ofNat 9 then ['\\', 't']
  else if c = Char.ofNat 10 then ['\\', 'n']
  else if c = Char.ofNat 12 then ['\\', 'f']
  else if c = Char.ofNat 13 then ['\\', 'r']
  else if c.toNat < 32 then '\\' :: 'u' :: hex4 c.toNat
  else if c.toNat < 127 then [c]
  else if c.toNat < 65536 then '\\' :: 'u' :: hex4 c.toNat
  else
    '\\' :: 'u' :: hex4 (55296 + (c.toNat - 65536) / 1024) ++
      ('\\' :: 'u' :: hex4 (56320 + (c.toNat - 65536) % 1024))

/-- JSON string literal as json.dumps writes it. -/
def jsonQuote (s : String) : List Char :=
  '"' :: s.toList.flatMap jsonEscapeChar ++ ['"']

mutual

/-- json.dumps with sort_keys=True and separators (comma, colon); the value
passed to it is already key-sorted by sort_lists_in_plan, so emitting
fields in stored order coincides with the re-sort dumps performs. -/
def jsonDumps : Json → List Char
  | .null => "null".toList
  | .bool true => "true".toList
  | .bool false => "false".toList
  | .num n => (toString n).toList
  | .str s => jsonQuote s
  | .arr l => '[' :: jsonDumpsElems l ++ [']']
  | .obj l => '{' :: jsonDumpsFields l ++ ['}']

def jsonDumpsElems : List Json → List Char
  | [] => []
  | [x] => jsonDumps x
  | x :: y :: xs => jsonDumps x ++ (',' :: jsonDumpsElems (y :: xs))

def jsonDumpsFields : List (String × Json) → List Char
  | [] => []
  | [(k, v)] => jsonQuote k ++ (':' :: jsonDumps v)
  | (k, v) :: y :: xs =>
    (jsonQuote k ++ (':' :: jsonDumps v)) ++ (',' :: jsonDumpsFields (y :: xs))

end

/-- Model of canonicalize_json: canonical JSON text of a value, keys
sorted, lists sorted where possible, no whitespace. -/
def canonicalize_json (data : Json) : String :=
  String.mk (jsonDumps (sort_lists_in_plan data))

/-! ### UTF-8 encoding and SHA-256, for str.encode and hashlib.sha256 -/

/-- UTF-8 encoding of one code point, as a list of byte values. -/
def utf8Char (c : Char) : List Nat :=
  let n := c.toNat
  if n < 128 then [n]
  else if n < 2048 then [192 + n / 64, 128 + n % 64]
  else if n < 65536 then [224 + n / 4096, 128 + n / 64 % 64, 128 + n % 64]
  else [240 + n / 262144, 128 + n / 4096 % 64, 128 + n / 64 % 64, 128 + n % 64]

/-- UTF-8 encoding of a string (Python str.encode with default encoding). -/
def utf8Encode (s : String) : List Nat := s.toList.flatMap utf8Char

/-- Word arithmetic helpers for SHA-256, on naturals reduced mod 2 to the 32. -/
def w32 (n : Nat) : Nat := n % 4294967296

def rotr32 (x n : Nat) : Nat := w32 (x / 2 ^ n + x % 2 ^ n * 2 ^ (32 - n))

def xor3 (a b c : Nat) : Nat := Nat.xor (Nat.xor a b) c

def not32 (x : Nat) : Nat := 4294967295 - x % 4294967296

/-- SHA-256 round constants. -/
def shaK : List Nat :=
  [1116352408, 1899447441, 3049323471, 3921009573, 961987163, 1508970993,
   2453635748, 2870763221, 3624381080, 310598401, 607225278, 1426881987,
   1925078388, 2162078206, 2614888103, 3248222580, 3835390401, 4022224774,
   264347078, 604807628, 770255983, 1249150122, 1555081692, 1996064986,
   2554220882, 2821834349, 2952996808, 3210313671, 3336571891, 3584528711,
   113926993, 338241895, 666307205, 773529912, 1294757372, 1396182291,
   1695183700, 1986661051, 2177026350, 2456956037, 2730485921, 2820302411,
   3259730800, 3345764771, 3516065817, 3600352804, 4094571909, 275423344,
   430227734, 506948616, 659060556, 883997877, 958139571, 1322822218,
   1537002063, 1747873779, 1955562222, 2024104815, 2227730452, 2361852424,
   2428436474, 2756734187, 3204031479, 3329325298]

/-- SHA-256 initial hash state. -/
def shaH0 : List Nat :=
  [1779033703, 3144134277, 1013904242, 2773480762, 1359893119, 2600822924,
   528734635, 1541459225]

/-- Pad a byte message to a multiple of 64 bytes, appending bit 1 and the
64-bit big-endian bit length. -/
def shaPad (msg : List Nat) : List Nat :=
  let len := msg.length
  let zeros := (119 - len % 64) % 64
  let bitLen := len * 8
  msg ++ [128] ++ List.replicate zeros 0 ++
    [bitLen / 2 ^ 56 % 256, bitLen / 2 ^ 48 % 256, bitLen / 2 ^ 40 % 256,
     bitLen / 2 ^ 32 % 256, bitLen / 2 ^ 24 % 256, bitLen / 2 ^ 16 % 256,
     bitLen / 2 ^ 8 % 256, bitLen % 256]

/-- Split bytes into 64-byte blocks of 16 big-endian 32-bit words; the
first argument is recursion fuel, always at least the number of blocks. -/
def shaBlocksF : Nat → List Nat → List (List Nat)
  | _, [] => []
  | 0, _ :: _ => []
  | fuel + 1, b :: rest =>
    let bytes := b :: rest
    let blk := bytes.take 64
    let words := (List.range 16).map (fun i =>
      blk.getD (4 * i) 0 * 16777216 + blk.getD (4 * i + 1) 0 * 65536 +
        blk.getD (4 * i + 2) 0 * 256 + blk.getD (4 * i + 3) 0)
    words :: shaBlocksF fuel (bytes.drop 64)

/-- Split padded bytes into 64-byte blocks of 16 big-endian 32-bit words:
each step consumes at least one byte, so the length is enough fuel. -/
def shaBlocks (bytes : List Nat) : List (List Nat) :=
  shaBlocksF bytes.length bytes

/-- Message schedule: extend 16 words to 64. -/
def shaSchedule (ws : List Nat) (i : Nat) : List Nat :=
  match i with
  | 0 => ws
  | j + 1 =>
    let ws := shaSchedule ws j
    let t := 16 + j
    let wA := ws.getD (t - 15) 0
    let wB := ws.getD (t - 2) 0
    let s0 := xor3 (rotr32 wA 7) (rotr32 wA 18) (wA / 8)
    let s1 := xor3 (rotr32 wB 17) (rotr32 wB 19) (wB / 1024)
    ws ++ [w32 (ws.getD (t - 16) 0 + s0 + ws.getD (t - 7) 0 + s1)]

/-- One round of the SHA-256 compression function. -/
def shaRound (st : List Nat) (kw : Nat × Nat) : List Nat :=
  match st with
  | [a, b, c, d, e, f, g, h] =>
    let s1 := xor3 (rotr32 e 6) (rotr32 e 11) (rotr32 e 25)
    let ch := Nat.xor (Nat.land e f) (Nat.land (not32 e) g)
    let t1 := w32 (h + s1 + ch + kw.1 + kw.2)
    let s0 := xor3 (rotr32 a 2) (rotr32 a 13) (rotr32 a 22)
    let mj := xor3 (Nat.land a b) (Nat.land a c) (Nat.land b c)
    let t2 := w32 (s0 + mj)
    [w32 (t1 + t2), a, b, c, w32 (d + t1), e, f, g]
  | st => st

/-- Compress one block into the running state. -/
def shaCompress (hs : List Nat) (block : List Nat) : List Nat :=
  let ws := shaSchedule block 48
  let st := (shaK.zip ws |>.map (fun p => (p.1, p.2))).foldl shaRound hs
  (hs.zip st).map (fun p => w32 (p.1 + p.2))

/-- SHA-256 digest of a byte message, as eight 32-bit words. -/
def sha256Words (msg : List Nat) : List Nat :=
  (shaBlocks (shaPad msg)).foldl shaCompress shaH0

/-- Lowercase hex of one 32-bit word. -/
def hexWord (n : Nat) : List Char :=
  (List.range 8).map (fun i => hexDigit (n / 16 ^ (7 - i) % 16))

/-- Model of hashlib.sha256(...).hexdigest() on a byte message. -/
def sha256Hex (msg : List Nat) : String :=
  String.mk ((sha256Words msg).flatMap hexWord)

/-! ### Plan schemas: app/db/schemas.py (the fields the core consumes) -/

/-- Resource of a Component (schemas.Resource); property values are the
strings the engine probes. -/
structure Resource where
  id : String
  type : String
  name : String
  description : Option String
  properties : List (String × String)
  deriving DecidableEq

/-- Component of a Plan (schemas.Component). -/
structure Component where
  id : String
  name : String
  type : String
  path : String
  resources : List Resource
  dependencies : List String
  deriving DecidableEq

/-- Relationship of a Plan (schemas.Relationship). -/
structure Relationship where
  source : String
  target : String
  type : String
  metadata : List (String × String)
  deriving DecidableEq

/-- The Plan (schemas.PlanSchema). -/
structure PlanSchema where
  schema_version : String
  project_name : String
  components : List Component
  relationships : List Relationship
  env_vars : List (String × String)
  deriving DecidableEq

/-- Dict of strings as a Json object. -/
def strMapJson (m : List (String × String)) : Json :=
  .obj (m.map (fun p => (p.1, .str p.2)))

/-- model_dump of a Resource: field order is declaration order. -/
def Resource.dump (r : Resource) : Json :=
  .obj [("id", .str r.id), ("type", .str r.type), ("name", .str r.name),
        ("description", match r.description with
          | none => .null
          | some d => .str d),
        ("properties", strMapJson r.properties)]

/-- model_dump of a Component. -/
def Component.dump (c : Component) : Json :=
  .obj [("id", .str c.id), ("name", .str c.name), ("type", .str c.type),
        ("path", .str c.path),
        ("resources", .arr (c.resources.map Resource.dump)),
        ("dependencies", .arr (c.dependencies.map Json.str))]

/-- model_dump of a Relationship. -/
def Relationship.dump (r : Relationship) : Json :=
  .obj [("source", .str r.source), ("target", .str r.target),
        ("type", .str r.type), ("metadata", strMapJson r.metadata)]

/-- Pydantic model_dump of the Plan, as passed to the canonicalizer. -/
def PlanSchema.model_dump (p : PlanSchema) : Json :=
  .obj [("schema_version", .str p.schema_version),
        ("project_name", .str p.project_name),
        ("components", .arr (p.components.map Component.dump)),
        ("relationships", .arr (p.relationships.map Relationship.dump)),
        ("env_vars", strMapJson p.env_vars)]

/-! ### The Graph IR: app/engine/graph.py over a networkx MultiDiGraph -/

/-- Python exception raised by a graph mutator: the RuntimeError contract
violation for frozen graphs, or the ValueError for missing endpoints. -/
inductive PyErr where
  | runtimeError (msg : String)
  | valueError (msg : String)
  deriving DecidableEq

/-- Attributes stored on a node (type, name, properties); the wrapper
always supplies all three, so an overwriting add_node replaces them. -/
structure NodeAttrs where
  type : String
  name : String
  properties : List (String × String)
  deriving DecidableEq

/-- Attributes stored on an edge. The empty metadata list models both an
absent metadata attribute and an empty dict: the engine only ever probes
metadata behind a truthiness guard, under which the two coincide. -/
structure EdgeAttrs where
  type : String
  metadata : List (String × String)
  deriving DecidableEq

/-- One node of the multigraph together with its adjacency: successors and
predecessors keyed by neighbour id in first-edge insertion order, with
parallel edges in insertion order inside each bucket — the layout of the
networkx _adj/_pred dictionaries, which fixes iteration order. -/
structure NodeEntry where
  id : String
  attrs : NodeAttrs
  succ : List (String × List EdgeAttrs)
  pred : List (String × List EdgeAttrs)
  deriving DecidableEq

/-- Model of SystemGraph: node entries in insertion order plus the frozen
flag. -/
structure SystemGraph where
  nodes : List NodeEntry
  frozen : Bool
  deriving DecidableEq

/-- The empty unfrozen graph, as SystemGraph.__init__ builds. -/
def SystemGraph.empty : SystemGraph := ⟨[], false⟩

/-- Node view returned by accessors (graph.NodeData). -/
structure NodeData where
  id : String
  type : String
  name : String
  properties : List (String × String)
  deriving DecidableEq

/-- Edge view returned by accessors (graph.EdgeData). -/
structure EdgeData where
  source : String
  target : String
  type : String
  metadata : List (String × String)
  deriving DecidableEq

def NodeEntry.data (n : NodeEntry) : NodeData :=
  ⟨n.id, n.attrs.type, n.attrs.name, n.attrs.properties⟩

def SystemGraph.has_node (g : SystemGraph) (id : String) : Bool :=
  g.nodes.any (fun n => n.id == id)

/-- Model of SystemGraph.add_node: contract violation when frozen;
overwrites attributes in place when the id exists (networkx updates the
attribute dict, and the wrapper passes the full set), appends otherwise. -/
def SystemGraph.add_node (g : SystemGraph) (id type name : String)
    (properties : List (String × String)) : Except PyErr SystemGraph :=
  if g.frozen then .error (.runtimeError "Graph is frozen")
  else if g.has_node id then
    .ok { g with nodes := g.nodes.map (fun n =>
      if n.id == id then { n with attrs := ⟨type, name, properties⟩ } else n) }
  else
    .ok { g with nodes := g.nodes ++ [⟨id, ⟨type, name, properties⟩, [], []⟩] }

/-- Append an edge to an adjacency bucket list, creating the bucket at the
end when the neighbour is new (dict insertion-order semantics). -/
def appendAdj (adj : List (String × List EdgeAttrs)) (key : String)
    (e : EdgeAttrs) : List (String × List EdgeAttrs) :=
  if adj.any (fun p => p.1 == key) then
    adj.map (fun p => if p.1 == key then (p.1, p.2 ++ [e]) else p)
  else adj ++ [(key, [e])]

/-- Model of SystemGraph.add_edge: contract violation when frozen, then
ValueError when either endpoint is absent (checked before any mutation, so
a failing call leaves the graph unchanged), else record the edge in the
successor bucket of the source and the predecessor bucket of the target. -/
def SystemGraph.add_edge (g : SystemGraph) (source target type : String)
    (metadata : List (String × String)) : Except PyErr SystemGraph :=
  if g.frozen then .error (.runtimeError "Graph is frozen")
  else if !g.has_node source then
    .error (.valueError ("Source node " ++ source ++ " does not exist"))
  else if !g.has_node target then
    .error (.valueError ("Target node " ++ target ++ " does not exist"))
  else
    .ok { g with nodes := g.nodes.map (fun n =>
      let n := if n.id == source then { n with succ := appendAdj n.succ target ⟨type, metadata⟩ } else n
      if n.id == target then { n with pred := appendAdj n.pred source ⟨type, metadata⟩ } else n) }

/-- Model of SystemGraph.freeze: sets the one-way flag. -/
def SystemGraph.freeze (g : SystemGraph) : SystemGraph := { g with frozen := true }

/-- Accessor: the nodes property, in insertion order. -/
def SystemGraph.nodeList (g : SystemGraph) : List NodeData :=
  g.nodes.map NodeEntry.data

/-- Accessor: the edges property; networkx iterates the adjacency dict,
node by node in insertion order, then bucket by bucket. -/
def SystemGraph.edges (g : SystemGraph) : List EdgeData :=
  g.nodes.flatMap (fun n =>
    n.succ.flatMap (fun b => b.2.map (fun e => ⟨n.id, b.1, e.type, e.metadata⟩)))

def SystemGraph.get_node (g : SystemGraph) (node_id : String) : Option NodeData :=
  (g.nodes.find? (fun n => n.id == node_id)).map NodeEntry.data

def SystemGraph.find_nodes_by_type (g : SystemGraph) (type : String) : List NodeData :=
  (g.nodes.filter (fun n => n.attrs.type == type)).map NodeEntry.data

/-- Filter of the optional edge-type argument of the edge queries. -/
def edgeTypeOk (edge_type : Option String) (e : EdgeAttrs) : Bool :=
  match edge_type with
  | none => true
  | some t => e.type == t

def SystemGraph.find_incoming_edges (g : SystemGraph) (node_id : String)
    (edge_type : Option String) : List EdgeData :=
  match g.nodes.find? (fun n => n.id == node_id) with
  | none => []
  | some n => n.pred.flatMap (fun b =>
      (b.2.filter (edgeTypeOk edge_type)).map (fun e => ⟨b.1, node_id, e.type, e.metadata⟩))

def SystemGraph.find_outgoing_edges (g : SystemGraph) (node_id : String)
    (edge_type : Option String) : List EdgeData :=
  match g.nodes.find? (fun n => n.id == node_id) with
  | none => []
  | some n => n.succ.flatMap (fun b =>
      (b.2.filter (edgeTypeOk edge_type)).map (fun e => ⟨node_id, b.1, e.type, e.metadata⟩))

/-! ### The Builder: app/engine/builder.py -/

def ALLOWED_COMPONENT_TYPES : List String := ["frontend", "backend", "database"]

def ALLOWED_RESOURCE_TYPES : List String := ["api_endpoint", "database_table", "migration"]

def ALLOWED_EDGE_TYPES : List String := ["calls", "creates", "reads", "updates", "deletes", "depends_on"]

/-- BuildError, one constructor per raise site of the Builder, carrying the
data interpolated into the message of that site. The extra internalFault
constructor stands for a Python exception other than BuildError escaping
build (provably unreachable from the public entry point). -/
inductive BuildErr where
  | unknownComponentType (t : String)
  | unknownResourceType (t : String)
  | unknownRelationshipType (t : String)
  | dependencyExists (msg : String)
  | uniqueEndpoint (method path firstId secondId : String)
  | noAmbiguousRoute (path targetName : String) (candidates : List String)
  | internalFault (e : PyErr)
  deriving DecidableEq

/-- Conversion for graph calls whose exceptions the Builder does not catch. -/
def convE {α : Type} : Except PyErr α → Except BuildErr α
  | .ok a => .ok a
  | .error e => .error (.internalFault e)

/-- Resource-kind alias normalization of Builder.build step 2. -/
def normalizeResType (t : String) : String :=
  if t == "api" then "api_endpoint"
  else if t == "table" then "database_table"
  else t

/-- Step 2 of Builder.build for the resources of one component. -/
def buildResources (compId : String) :
    SystemGraph → List Resource → Except BuildErr SystemGraph
  | g, [] => .ok g
  | g, res :: rest => do
    let resType := normalizeResType res.type
    if ALLOWED_RESOURCE_TYPES.contains resType then do
      let g ← convE (g.add_node res.id resType res.name res.properties)
      let g ← convE (g.add_edge compId res.id "contains" [])
      buildResources compId g rest
    else .error (.unknownResourceType res.type)

/-- Step 1 of Builder.build: components with their resources. -/
def buildComponents :
    SystemGraph → List Component → Except BuildErr SystemGraph
  | g, [] => .ok g
  | g, comp :: rest => do
    if ALLOWED_COMPONENT_TYPES.contains comp.type then do
      let g ← convE (g.add_node comp.id "component" comp.name
        [("path", comp.path), ("comp_type", comp.type)])
      let g ← buildResources comp.id g comp.resources
      buildComponents g rest
    else .error (.unknownComponentType comp.type)

/-- Step 3 of Builder.build: relationships as edges; the ValueError of a
missing endpoint is mapped to the DEPENDENCY_EXISTS structural failure. -/
def buildRelationships :
    SystemGraph → List Relationship → Except BuildErr SystemGraph
  | g, [] => .ok g
  | g, rel :: rest =>
    if ALLOWED_EDGE_TYPES.contains rel.type then
      match g.add_edge rel.source rel.target rel.type rel.metadata with
      | .ok g2 => buildRelationships g2 rest
      | .error (.valueError m) => .error (.dependencyExists m)
      | .error e => .error (.internalFault e)
    else .error (.unknownRelationshipType rel.type)

/-- UNIQUE_ENDPOINT scan of Builder._reject_ambiguity: walk api_endpoint
nodes in insertion order keeping a routes table from (uppercased method,
path) to the first node id seen; only nodes whose method and path are both
non-empty participate; fail on the first collision, naming the stored id
and the current one. -/
def uniqueScan : List NodeData → List ((String × String) × String) → Except BuildErr Unit
  | [], _ => .ok ()
  | node :: rest, routes =>
    let method := strUpper (dgetD node.properties "method" "")
    let path := dgetD node.properties "path" ""
    if method ≠ "" && path ≠ "" then
      match routes.find? (fun r => r.1 == (method, path)) with
      | some r => .error (.uniqueEndpoint method path r.2 node.id)
      | none => uniqueScan rest (routes ++ [((method, path), node.id)])
    else uniqueScan rest routes

/-- Candidate resolution of the NO_AMBIGUOUS_ROUTE check: contains-children
of the target that are api_endpoint nodes with the call path, restricted to
case-insensitive method matches when the call has a truthy method (the
source guards with `if call_method:`, so a present but empty method string
is falsy and takes the relaxed all-path-matching branch). -/
def routeCandidates (g : SystemGraph) (targetId callPath : String)
    (callMethod : Option String) : List NodeData :=
  let childIds := (g.find_outgoing_edges targetId (some "contains")).map EdgeData.target
  childIds.filterMap (fun childId =>
    match g.get_node childId with
    | none => none
    | some child =>
      if child.type == "api_endpoint" && dget child.properties "path" == some callPath then
        match callMethod with
        | some m =>
          if m ≠ "" then
            if strUpper (dgetD child.properties "method" "") == strUpper m then some child
            else none
          else some child
        | none => some child
      else none)

/-- Call path of an edge as the check reads it (metadata truthiness guard). -/
def callPathOf (e : EdgeData) : Option String :=
  if e.metadata ≠ [] then dget e.metadata "path" else none

/-- Call method of an edge as the check reads it. -/
def callMethodOf (e : EdgeData) : Option String :=
  if e.metadata ≠ [] then dget e.metadata "method" else none

/-- NO_AMBIGUOUS_ROUTE check of one edge: only calls edges with a truthy
path metadata and a component target are examined. An absent target node
is skipped; it cannot occur on a graph the Builder produced, where every
edge endpoint exists. -/
def checkCallsEdge (g : SystemGraph) (edge : EdgeData) : Except BuildErr Unit :=
  if edge.type == "calls" then
    match g.get_node edge.target with
    | none => .ok ()
    | some target_node =>
      let call_path := callPathOf edge
      let call_method := callMethodOf edge
      match call_path with
      | some p =>
        if p ≠ "" && target_node.type == "component" then
          let found := routeCandidates g target_node.id p call_method
          if found.length > 1 then
            .error (.noAmbiguousRoute p target_node.name (found.map NodeData.id))
          else .ok ()
        else .ok ()
      | none => .ok ()
  else .ok ()

/-- Sequence a check over a list, stopping at the first error, as a Python
for loop with a raise does. -/
def scanE {α : Type} (f : α → Except BuildErr Unit) : List α → Except BuildErr Unit
  | [] => .ok ()
  | x :: xs => do
    f x
    scanE f xs

/-- Model of Builder._reject_ambiguity: the UNIQUE_ENDPOINT pass over
api_endpoint nodes, then the NO_AMBIGUOUS_ROUTE pass over edges. -/
def reject_ambiguity (g : SystemGraph) : Except BuildErr Unit := do
  uniqueScan (g.find_nodes_by_type "api_endpoint") []
  scanE (checkCallsEdge g) g.edges

/-- Model of Builder.build: nodes and contains edges, relationship edges,
ambiguity rejection, then freeze. -/
def Builder.build (plan : PlanSchema) : Except BuildErr SystemGraph := do
  let g := SystemGraph.empty
  let g ← buildComponents g plan.components
  let g ← buildRelationships g plan.relationships
  reject_ambiguity g
  .ok g.freeze

/-! ### Rule Evaluators: app/engine/evaluators.py -/

/-- Violation as the evaluators build it; metadata values can be null when
a probed property is absent. -/
structure Violation where
  rule_id : String
  message : String
  offending_node : String
  metadata : List (String × Json)
  deriving DecidableEq

/-- Payload hashed into the violation fingerprint: the rule id and the
offending node, updated by the dedup data (a dedup key equal to rule_id or
offending_node overrides the field in the payload). -/
def violationPayload (rule_id offending_node : String)
    (dedup_data : List (String × Json)) : Json :=
  .obj (dictMerge [("rule_id", .str rule_id), ("offending_node", .str offending_node)]
    dedup_data)

/-- Model of generate_violation: deterministic sha256 fingerprint of the
canonicalized payload, embedded as a short prefix in the message and in
full in the metadata. -/
def generate_violation (rule_id message offending_node : String)
    (dedup_data : List (String × Json)) : Violation :=
  let v_id := sha256Hex (utf8Encode
    (canonicalize_json (violationPayload rule_id offending_node dedup_data)))
  { rule_id := rule_id,
    message := message ++ " (ID: " ++ String.mk (v_id.toList.take 8) ++ ")",
    offending_node := offending_node,
    metadata := dictMerge [("violation_hash", .str v_id)] dedup_data }

/-- Fingerprint hash stored by generate_violation in the metadata. -/
def violationFingerprint (v : Violation) : Option Json := dget v.metadata "violation_hash"

/-- Builder-style call resolution shared by FeBeMatch and ApiMethodMatch:
first contains-child of the target that is an api_endpoint whose path
property equals the call path (an absent path property matches an absent
call path, as Python None == None). -/
def resolveChild (g : SystemGraph) (targetId : String) (callPath : Option String) :
    Option NodeData :=
  (g.find_outgoing_edges targetId (some "contains")).findSome? (fun e =>
    match g.get_node e.target with
    | none => none
    | some child =>
      if child.type == "api_endpoint" && dget child.properties "path" == callPath then
        some child
      else none)

/-- Model of FeBeMatchEvaluator.evaluate: every calls edge from a frontend
component with a truthy path must resolve to an endpoint contained in a
backend component. -/
def FeBeMatchEvaluator.evaluate (g : SystemGraph) : List Violation :=
  g.edges.flatMap (fun edge =>
    if edge.type == "calls" then
      match g.get_node edge.source, g.get_node edge.target with
      | some source_node, some target_node =>
        let is_frontend := source_node.type == "component" &&
          dget source_node.properties "comp_type" == some "frontend"
        if is_frontend then
          let call_path := if edge.metadata ≠ [] then dget edge.metadata "path" else none
          match call_path with
          | some p =>
            if p ≠ "" then
              let resolved_node :=
                if target_node.type == "component" then
                  (resolveChild g target_node.id (some p)).getD target_node
                else target_node
              let parents := g.find_incoming_edges resolved_node.id (some "contains")
              let is_backend_target :=
                match parents.head? with
                | some pe =>
                  match g.get_node pe.source with
                  | some parent =>
                    parent.type == "component" &&
                      dget parent.properties "comp_type" == some "backend"
                  | none => false
                | none => false
              if !is_backend_target then
                [generate_violation "FE_BE_001"
                  ("Frontend calls " ++ p ++ " which is not a Backend API.")
                  edge.source
                  [("target", .str resolved_node.id), ("path", .str p)]]
              else []
            else []
          | none => []
        else []
      | _, _ => []
    else [])

/-- Model of ApiSchemaEvaluator.evaluate: every api_endpoint node must have
one of the schema, request_schema, response_schema properties. -/
def ApiSchemaEvaluator.evaluate (g : SystemGraph) : List Violation :=
  (g.find_nodes_by_type "api_endpoint").flatMap (fun node =>
    let props := node.properties
    let has_schema := (dget props "schema").isSome || (dget props "request_schema").isSome ||
      (dget props "response_schema").isSome
    if !has_schema then
      [generate_violation "API_SCHEMA_001"
        ("API Endpoint " ++ node.name ++ " (" ++ dgetD props "path" "unknown" ++
          ") missing schema declaration.")
        node.id
        [("path", match dget props "path" with
          | some p => .str p
          | none => .null)]]
    else [])

/-- Model of DbMigEvaluator.evaluate: every database_table node needs an
incoming creates edge from a migration node. -/
def DbMigEvaluator.evaluate (g : SystemGraph) : List Violation :=
  (g.find_nodes_by_type "database_table").flatMap (fun table =>
    let incoming := g.find_incoming_edges table.id (some "creates")
    let has_migration := incoming.any (fun edge =>
      match g.get_node edge.source with
      | some source => source.type == "migration"
      | none => false)
    if !has_migration then
      [generate_violation "DB_MIG_001"
        ("Table " ++ table.name ++ " is not created by any migration.")
        table.id
        [("table_name", .str table.name)]]
    else [])

/-- Model of ApiMethodMatchEvaluator.evaluate: a calls edge carrying a
method, resolved to an api_endpoint declaring one, must match it
case-insensitively. -/
def ApiMethodMatchEvaluator.evaluate (g : SystemGraph) : List Violation :=
  g.edges.flatMap (fun edge =>
    if edge.type == "calls" then
      let call_method := if edge.metadata ≠ [] then dget edge.metadata "method" else none
      match call_method with
      | some cm =>
        if cm ≠ "" then
          match g.get_node edge.target with
          | none => []
          | some target_node =>
            let resolved :=
              if target_node.type == "component" then
                (resolveChild g target_node.id (dget edge.metadata "path")).getD target_node
              else target_node
            if resolved.type == "api_endpoint" then
              match dget resolved.properties "method" with
              | some tm =>
                if tm ≠ "" && strUpper tm != strUpper cm then
                  [generate_violation "API_METHOD_MATCH_001"
                    ("HTTP Method Mismatch: Call uses " ++ cm ++ ", Endpoint expects " ++ tm ++ ".")
                    edge.source
                    [("call_method", .str cm), ("target_method", .str tm),
                     ("path", match dget edge.metadata "path" with
                       | some p => .str p
                       | none => .null)]]
                else []
              | none => []
            else []
        else []
      | none => []
    else [])

/-- The registry ACTIVE_EVALUATORS, run in registration order as the
validation route does, concatenating the violation lists. -/
def run_evaluators (g : SystemGraph) : List Violation :=
  FeBeMatchEvaluator.evaluate g ++ ApiSchemaEvaluator.evaluate g ++
    DbMigEvaluator.evaluate g ++ ApiMethodMatchEvaluator.evaluate g

/-! ### DFR assembly: app/engine/dfr.py -/

/-- The DFR value (schemas.DFR without the informational timestamp, which
is a datetime default outside the deterministic core). -/
structure DFR where
  plan_hash : String
  engine_version : String
  passed : Bool
  violations : List Violation
  deriving DecidableEq

/-- Strict comparison of the (rule_id, offending_node) sort key, the tuple
order list.sort uses in generate_dfr. -/
def violTupleLt (a b : Violation) : Bool :=
  strLtB a.rule_id b.rule_id ||
    (a.rule_id == b.rule_id && strLtB a.offending_node b.offending_node)

/-- Non-strict key order for the stable sort. -/
def violLeB (a b : Violation) : Bool := !(violTupleLt b a)

/-- Model of generate_dfr. ENGINE_VERSION is the module constant of
app/core/engine_version.py, computed once at import time by hashing the
engine source files on disk; that file read is outside a shallow embedding,
so the constant is a parameter here, which generate_dfr copies verbatim
(str applied to a str is the identity). The plan dict is passed through
sort_lists_in_plan and then canonicalize_json exactly as the source does
(the second canonicalization re-sorts the already sorted value). -/
def generate_dfr (ENGINE_VERSION : String) (plan : PlanSchema)
    (violations : List Violation) : DFR :=
  let sorted_plan := sort_lists_in_plan plan.model_dump
  let canonical_json_raw := canonicalize_json sorted_plan
  let plan_hash := sha256Hex (utf8Encode canonical_json_raw)
  let formatted_violations := insSort violLeB violations
  { plan_hash := plan_hash,
    engine_version := ENGINE_VERSION,
    passed := formatted_violations.length == 0,
    violations := formatted_violations }

/-- Plan hash alone, for stating hash-level properties. -/
def planHash (plan : PlanSchema) : String :=
  sha256Hex (utf8Encode (canonicalize_json (sort_lists_in_plan plan.model_dump)))

/-! ### Generic facts about the stable sort -/

theorem ordInsert_perm {α : Type} (le : α → α → Bool) (a : α) (l : List α) :
    (ordInsert le a l).Perm (a :: l) := by
  induction l with
  | nil => simp [ordInsert]
  | cons b t ih =>
    rw [ordInsert]
    split
    · exact .refl _
    · exact .trans (.cons b ih) (.swap a b t)

theorem insSort_perm {α : Type} (le : α → α → Bool) (l : List α) :
    (insSort le l).Perm l := by
  induction l with
  | nil => exact .refl _
  | cons a t ih => exact .trans (ordInsert_perm le a (insSort le t)) (.cons a ih)

theorem mem_insSort {α : Type} {le : α → α → Bool} {l : List α} {x : α} :
    x ∈ insSort le l ↔ x ∈ l := (insSort_perm le l).mem_iff

theorem length_insSort {α : Type} (le : α → α → Bool) (l : List α) :
    (insSort le l).length = l.length := (insSort_perm le l).length_eq

theorem ordInsert_pairwise {α : Type} {le : α → α → Bool} {S : List α}
    (htot : ∀ x ∈ S, ∀ y ∈ S, le x y = true ∨ le y x = true)
    (htr : ∀ x ∈ S, ∀ y ∈ S, ∀ z ∈ S, le x y = true → le y z = true → le x z = true)
    {a : α} {l : List α} (haS : a ∈ S) (hlS : ∀ x ∈ l, x ∈ S)
    (hl : l.Pairwise (fun x y => le x y = true)) :
    (ordInsert le a l).Pairwise (fun x y => le x y = true) := by
  induction l with
  | nil => simp [ordInsert]
  | cons b t ih =>
    have hbS : b ∈ S := hlS b (by simp)
    have htS : ∀ x ∈ t, x ∈ S := fun x hx => hlS x (by simp [hx])
    rw [ordInsert]
    cases hab : le a b with
    | false =>
      rw [if_neg (by simp [hab])]
      refine List.Pairwise.cons ?_ (ih htS hl.tail)
      intro x hx
      rcases List.mem_cons.mp ((ordInsert_perm le a t).mem_iff.mp hx) with h | h
      · rw [h]
        rcases htot a haS b hbS with h1 | h1
        · rw [hab] at h1; exact absurd h1 (by simp)
        · exact h1
      · exact List.rel_of_pairwise_cons hl h
    | true =>
      rw [if_pos (by simp [hab])]
      refine List.Pairwise.cons ?_ hl
      intro x hx
      rcases List.mem_cons.mp hx with h | h
      · subst h; exact hab
      · exact htr a haS b hbS x (htS x h) hab (List.rel_of_pairwise_cons hl h)

theorem insSort_pairwise {α : Type} {le : α → α → Bool} {S : List α}
    (htot : ∀ x ∈ S, ∀ y ∈ S, le x y = true ∨ le y x = true)
    (htr : ∀ x ∈ S, ∀ y ∈ S, ∀ z ∈ S, le x y = true → le y z = true → le x z = true)
    {l : List α} (hlS : ∀ x ∈ l, x ∈ S) :
    (insSort le l).Pairwise (fun x y => le x y = true) := by
  induction l with
  | nil => simp [insSort]
  | cons a t ih =>
    rw [insSort]
    exact ordInsert_pairwise htot htr (hlS a (by simp))
      (fun x hx => hlS x (by simp [mem_insSort.mp hx]))
      (ih (fun x hx => hlS x (by simp [hx])))

theorem pairwise_perm_eq {α : Type} {le : α → α → Bool} :
    ∀ {l₁ l₂ : List α},
    (∀ x ∈ l₁, ∀ y ∈ l₁, le x y = true → le y x = true → x = y) →
    l₁.Perm l₂ →
    l₁.Pairwise (fun x y => le x y = true) →
    l₂.Pairwise (fun x y => le x y = true) →
    l₁ = l₂
  | [], l₂, _, hp, _, _ => hp.nil_eq
  | a :: t₁, l₂, hanti, hp, h₁, h₂ => by
    have ha₂ : a ∈ l₂ := hp.mem_iff.mp (by simp)
    match l₂, h₂ with
    | b :: t₂, h₂ =>
      have hb₁ : b ∈ a :: t₁ := hp.mem_iff.mpr (by simp)
      have hab : a = b := by
        rcases List.mem_cons.mp ha₂ with h | h
        · exact h
        · rcases List.mem_cons.mp hb₁ with h3 | h3
          · exact h3.symm
          · exact hanti a (by simp) b (by simp [h3])
              (List.rel_of_pairwise_cons h₁ h3) (List.rel_of_pairwise_cons h₂ h)
      subst hab
      have ht : t₁.Perm t₂ := hp.cons_inv
      have : t₁ = t₂ :=
        pairwise_perm_eq
          (fun x hx y hy => hanti x (by simp [hx]) y (by simp [hy]))
          ht h₁.tail h₂.tail
      rw [this]

theorem insSort_eq_of_perm {α : Type} {le : α → α → Bool} {l₁ l₂ : List α}
    (hperm : l₁.Perm l₂)
    (htot : ∀ x ∈ l₁, ∀ y ∈ l₁, le x y = true ∨ le y x = true)
    (htr : ∀ x ∈ l₁, ∀ y ∈ l₁, ∀ z ∈ l₁, le x y = true → le y z = true → le x z = true)
    (hanti : ∀ x ∈ l₁, ∀ y ∈ l₁, le x y = true → le y x = true → x = y) :
    insSort le l₁ = insSort le l₂ := by
  have hm₁ : ∀ x ∈ insSort le l₁, x ∈ l₁ := fun x hx => mem_insSort.mp hx
  have hm₂ : ∀ x ∈ insSort le l₂, x ∈ l₁ := fun x hx =>
    hperm.mem_iff.mpr (mem_insSort.mp hx)
  exact pairwise_perm_eq
    (fun x hx y hy => hanti x (hm₁ x hx) y (hm₁ y hy))
    (((insSort_perm le l₁).trans hperm).trans (insSort_perm le l₂).symm)
    (insSort_pairwise htot htr (fun x hx => hx))
    (insSort_pairwise htot htr (fun x hx => hperm.mem_iff.mpr hx))

/-! ### The Python string order is a strict total order -/

theorem charLtB_iff {a b : Char} : charLtB a b = true ↔ a.toNat < b.toNat := by
  simp [charLtB]

theorem lexLtB_asymm : ∀ a b : List Char, lexLtB a b = true → lexLtB b a = false := by
  intro a
  induction a with
  | nil =>
    intro b h
    cases b with
    | nil => simp [lexLtB] at h
    | cons c cs => simp [lexLtB]
  | cons x xs ih =>
    intro b h
    cases b with
    | nil => simp [lexLtB] at h
    | cons y ys =>
      simp only [lexLtB, Bool.or_eq_true, Bool.and_eq_true] at h
      simp only [lexLtB, Bool.or_eq_false_iff, Bool.and_eq_false_iff]
      rcases h with h1 | ⟨h2, h3⟩
      · rw [charLtB_iff] at h1
        constructor
        · rw [Bool.eq_false_iff]
          intro hc
          rw [charLtB_iff] at hc
          omega
        · left
          rw [Bool.eq_false_iff]
          intro hc
          have : y = x := eq_of_beq hc
          subst this
          omega
      · have hxy : x = y := eq_of_beq h2
        subst hxy
        constructor
        · rw [Bool.eq_false_iff]
          intro hc
          rw [charLtB_iff] at hc
          omega
        · right
          exact ih ys h3

theorem lexLtB_irrefl (a : List Char) : lexLtB a a = false := by
  rcases h : lexLtB a a with hf | ht
  · rfl
  · have := lexLtB_asymm a a h
    rw [h] at this
    exact this

theorem lexLtB_trans : ∀ a b c : List Char,
    lexLtB a b = true → lexLtB b c = true → lexLtB a c = true := by
  intro a
  induction a with
  | nil =>
    intro b c hab hbc
    cases b with
    | nil => simp [lexLtB] at hab
    | cons y ys =>
      cases c with
      | nil => simp [lexLtB] at hbc
      | cons z zs => simp [lexLtB]
  | cons x xs ih =>
    intro b c hab hbc
    cases b with
    | nil => simp [lexLtB] at hab
    | cons y ys =>
      cases c with
      | nil => simp [lexLtB] at hbc
      | cons z zs =>
        simp only [lexLtB, Bool.or_eq_true, Bool.and_eq_true] at hab hbc ⊢
        rcases hab with h1 | ⟨h2, h3⟩
        · rcases hbc with g1 | ⟨g2, g3⟩
          · left
            rw [charLtB_iff] at h1 g1 ⊢
            omega
          · have : y = z := eq_of_beq g2
            subst this
            left
            exact h1
        · have hxy : x = y := eq_of_beq h2
          subst hxy
          rcases hbc with g1 | ⟨g2, g3⟩
          · left
            exact g1
          · have hyz : x = z := eq_of_beq g2
            subst hyz
            right
            exact ⟨by simp, ih ys zs h3 g3⟩

theorem lexLtB_conn : ∀ a b : List Char,
    lexLtB a b = false → lexLtB b a = false → a = b := by
  intro a
  induction a with
  | nil =>
    intro b hab _
    cases b with
    | nil => rfl
    | cons y ys => simp [lexLtB] at hab
  | cons x xs ih =>
    intro b hab hba
    cases b with
    | nil => simp [lexLtB] at hba
    | cons y ys =>
      simp only [lexLtB, Bool.or_eq_false_iff, Bool.and_eq_false_iff] at hab hba
      have hxy : x = y := by
        have h1 := hab.1
        have h2 := hba.1
        rw [Bool.eq_false_iff] at h1 h2
        rw [Ne, charLtB_iff] at h1 h2
        have hn : x.toNat = y.toNat := by omega
        rw [← Char.ofNat_toNat x, hn, Char.ofNat_toNat y]
      subst hxy
      rcases hab.2 with h | h
      · simp at h
      · rcases hba.2 with g | g
        · simp at g
        · rw [ih ys h g]

theorem strLtB_asymm {a b : String} (h : strLtB a b = true) : strLtB b a = false :=
  lexLtB_asymm a.toList b.toList h

theorem strLtB_irrefl (a : String) : strLtB a a = false := lexLtB_irrefl a.toList

theorem strLtB_trans {a b c : String} (hab : strLtB a b = true)
    (hbc : strLtB b c = true) : strLtB a c = true :=
  lexLtB_trans a.toList b.toList c.toList hab hbc

theorem strLtB_conn {a b : String} (hab : strLtB a b = false)
    (hba : strLtB b a = false) : a = b := by
  have h := lexLtB_conn a.toList b.toList hab hba
  cases a with
  | mk da =>
    cases b with
    | mk db => exact congrArg String.mk h

/-! ### The violation sort key is a total preorder -/

theorem violTupleLt_asymm {a b : Violation} (h : violTupleLt a b = true) :
    violTupleLt b a = false := by
  simp only [violTupleLt, Bool.or_eq_true, Bool.and_eq_true] at h
  simp only [violTupleLt, Bool.or_eq_false_iff, Bool.and_eq_false_iff]
  rcases h with h1 | ⟨h2, h3⟩
  · refine ⟨strLtB_asymm h1, Or.inl ?_⟩
    rw [Bool.eq_false_iff]
    intro hc
    rw [eq_of_beq hc] at h1
    rw [strLtB_irrefl] at h1
    exact absurd h1 (by simp)
  · have : a.rule_id = b.rule_id := eq_of_beq h2
    rw [this]
    exact ⟨strLtB_irrefl _, Or.inr (strLtB_asymm h3)⟩

theorem violTupleLt_conn {a b : Violation} (hab : violTupleLt a b = false)
    (hba : violTupleLt b a = false) :
    a.rule_id = b.rule_id ∧ a.offending_node = b.offending_node := by
  simp only [violTupleLt, Bool.or_eq_false_iff, Bool.and_eq_false_iff] at hab hba
  have hr : a.rule_id = b.rule_id := strLtB_conn hab.1 hba.1
  refine ⟨hr, ?_⟩
  rcases hab.2 with h | h
  · rw [Bool.eq_false_iff] at h
    exact absurd (beq_of_eq hr) h
  · rcases hba.2 with g | g
    · rw [Bool.eq_false_iff] at g
      exact absurd (beq_of_eq hr.symm) g
    · exact strLtB_conn h g

theorem violTupleLt_trans {a b c : Violation} (hab : violTupleLt a b = true)
    (hbc : violTupleLt b c = true) : violTupleLt a c = true := by
  simp only [violTupleLt, Bool.or_eq_true, Bool.and_eq_true] at hab hbc ⊢
  rcases hab with h1 | ⟨h2, h3⟩
  · rcases hbc with g1 | ⟨g2, g3⟩
    · exact Or.inl (strLtB_trans h1 g1)
    · rw [eq_of_beq g2] at h1
      exact Or.inl h1
  · rw [eq_of_beq h2]
    rcases hbc with g1 | ⟨g2, g3⟩
    · exact Or.inl g1
    · rw [eq_of_beq g2]
      exact Or.inr ⟨by simp, strLtB_trans h3 g3⟩

theorem violTupleLt_key {a a2 b : Violation} (h1 : a.rule_id = a2.rule_id)
    (h2 : a.offending_node = a2.offending_node) :
    violTupleLt a b = violTupleLt a2 b ∧ violTupleLt b a = violTupleLt b a2 := by
  rw [violTupleLt, violTupleLt, h1, h2]
  rw [violTupleLt, violTupleLt, h1, h2]
  exact ⟨rfl, rfl⟩

theorem violLeB_total (a b : Violation) : violLeB a b = true ∨ violLeB b a = true := by
  simp only [violLeB, Bool.not_eq_true']
  rcases h : violTupleLt b a with hf | ht
  · exact Or.inl rfl
  · exact Or.inr (violTupleLt_asymm h)

theorem violLeB_trans (a b c : Violation) (hab : violLeB a b = true)
    (hbc : violLeB b c = true) : violLeB a c = true := by
  simp only [violLeB, Bool.not_eq_true'] at hab hbc ⊢
  rcases h : violTupleLt c a with hf | ht
  · rfl
  · exfalso
    rcases g : violTupleLt a b with gf | gt
    · have hk := violTupleLt_conn g hab
      rw [(violTupleLt_key hk.1 hk.2).2] at h
      rw [h] at hbc
      exact absurd hbc (by simp)
    · have := violTupleLt_trans h g
      rw [this] at hbc
      exact absurd hbc (by simp)

theorem violLeB_iff {a b : Violation} :
    violLeB a b = true ↔
      (strLtB a.rule_id b.rule_id = true ∨
        (a.rule_id = b.rule_id ∧ strLtB b.offending_node a.offending_node = false)) := by
  simp only [violLeB, violTupleLt, Bool.not_eq_true', Bool.or_eq_false_iff,
    Bool.and_eq_false_iff]
  constructor
  · rintro ⟨h1, h2⟩
    rcases g : strLtB a.rule_id b.rule_id with gf | gt
    · have hr : a.rule_id = b.rule_id := strLtB_conn g h1
      refine Or.inr ⟨hr, ?_⟩
      rcases h2 with h | h
      · rw [Bool.eq_false_iff] at h
        exact absurd (beq_of_eq hr.symm) h
      · exact h
    · exact Or.inl rfl
  · rintro (h | ⟨hr, ho⟩)
    · refine ⟨strLtB_asymm h, Or.inl ?_⟩
      rw [Bool.eq_false_iff]
      intro hc
      rw [eq_of_beq hc] at h
      rw [strLtB_irrefl] at h
      exact absurd h (by simp)
    · rw [hr]
      exact ⟨strLtB_irrefl _, Or.inr ho⟩

/-- C2: for every Plan and violation list, the engine_version field of the
generated DFR is the engine-version string handed to the DFR generator,
copied verbatim: generate_dfr applies str to the module constant, and str
of a str is the identity, so the core neither computes nor alters it. -/
theorem C2_engine_version_verbatim (ENGINE_VERSION : String) (plan : PlanSchema)
    (violations : List Violation) :
    (generate_dfr ENGINE_VERSION plan violations).engine_version = ENGINE_VERSION := rfl

/-- C4: generate_dfr (a total function, hence never failing on Graph and
Violation values) returns the violations sorted ascending by the pair
(rule_id, offending_node) in the Python string order, as a permutation of
its input, with passed true exactly when the violation list is empty. -/
theorem C4_generate_dfr_sorted (ENGINE_VERSION : String) (plan : PlanSchema)
    (violations : List Violation) :
    ((generate_dfr ENGINE_VERSION plan violations).violations.Pairwise (fun a b =>
        strLtB a.rule_id b.rule_id = true ∨
          (a.rule_id = b.rule_id ∧ strLtB b.offending_node a.offending_node = false)))
    ∧ (generate_dfr ENGINE_VERSION plan violations).violations.Perm violations
    ∧ ((generate_dfr ENGINE_VERSION plan violations).passed = true ↔ violations = []) := by
  refine ⟨?_, ?_, ?_⟩
  · have hp : (insSort violLeB violations).Pairwise (fun a b => violLeB a b = true) :=
      insSort_pairwise (S := violations)
        (fun x _ y _ => violLeB_total x y)
        (fun x _ y _ z _ => violLeB_trans x y z)
        (fun x hx => hx)
    exact hp.imp (fun h => violLeB_iff.mp h)
  · exact insSort_perm violLeB violations
  · show ((insSort violLeB violations).length == 0) = true ↔ violations = []
    rw [length_insSort]
    simp [List.length_eq_zero]

/-! ### Claims C5 and C10 -/

/-- C5 as stated is false: the fingerprint payload is the dict literal of
rule_id and offending_node updated by dedup_data, so a dedup_data entry
named rule_id overrides the rule id; two calls differing only in the
rule_id argument then produce the same fingerprint. -/
theorem C5_counterexample :
    violationFingerprint (generate_violation "A" "msg" "node" [("rule_id", .str "B")]) =
      violationFingerprint (generate_violation "B" "msg" "node" [("rule_id", .str "B")])
    ∧ ("A" : String) ≠ "B" := by
  exact ⟨rfl, by decide⟩

/-- C5 amended: the fingerprint of generate_violation is a deterministic
function of (rule_id, offending_node, dedup_data) alone — in particular the
message (and nothing time- or randomness-dependent) enters it — but a
changed rule_id or offending_node argument need not change the fingerprint
when dedup_data overrides that key of the payload. -/
theorem C5_fingerprint_depends_only_on_payload
    (rule_id offending_node : String) (dedup_data : List (String × Json))
    (message message2 : String) :
    violationFingerprint (generate_violation rule_id message offending_node dedup_data) =
      violationFingerprint (generate_violation rule_id message2 offending_node dedup_data) := rfl

/-- Helper: find? over an attribute-replacing map finds the replaced entry. -/
theorem find_map_replace (id type name : String) (props : List (String × String)) :
    ∀ l : List NodeEntry, l.any (fun n => n.id == id) = true →
    ((l.map (fun n => if n.id == id then { n with attrs := ⟨type, name, props⟩ } else n)).find?
        (fun n => n.id == id)).map NodeEntry.data =
      some ⟨id, type, name, props⟩ := by
  intro l
  induction l with
  | nil => intro h; simp at h
  | cons n t ih =>
    intro h
    cases hn : n.id == id with
    | false =>
      have hrest : t.any (fun n => n.id == id) = true := by
        rcases List.any_eq_true.mp h with ⟨x, hx, hxe⟩
        rcases List.mem_cons.mp hx with he | he
        · rw [he] at hxe; rw [hxe] at hn; exact absurd hn (by simp)
        · exact List.any_eq_true.mpr ⟨x, he, hxe⟩
      rw [List.map_cons, if_neg (by simp [hn]), List.find?_cons_of_neg _ (by simp [hn])]
      exact ih hrest
    | true =>
      have hid : n.id = id := eq_of_beq hn
      rw [List.map_cons, if_pos hn, List.find?_cons_of_pos _ (by simp [hn])]
      simp [NodeEntry.data, hid]

/-- C10: an add_node on an unfrozen graph whose id already exists succeeds
without creating a second node, overwriting type, name and properties in
place; and the concrete Plan with two components sharing id c compiles to a
graph with the single node c carrying the second component declaration. -/
theorem C10_add_node_overwrite :
    (∀ (g : SystemGraph) (id type name : String) (props : List (String × String)),
      g.frozen = false → g.has_node id = true →
      ∃ g2, g.add_node id type name props = .ok g2 ∧
        (g2.nodes.map NodeEntry.id) = (g.nodes.map NodeEntry.id) ∧
        g2.get_node id = some ⟨id, type, name, props⟩)
    ∧ ((Builder.build
        { schema_version := "1.0", project_name := "p",
          components :=
            [ { id := "c", name := "A", type := "frontend", path := "/a",
                resources := [], dependencies := [] },
              { id := "c", name := "B", type := "backend", path := "/b",
                resources := [], dependencies := [] } ],
          relationships := [], env_vars := [] }).map
          (fun g => (g.nodeList.map NodeData.id, g.get_node "c")) =
        .ok (["c"], some ⟨"c", "component", "B", [("path", "/b"), ("comp_type", "backend")]⟩)) := by
  constructor
  · intro g id type name props hfrozen hhas
    refine ⟨{ g with nodes := g.nodes.map (fun n =>
        if n.id == id then { n with attrs := ⟨type, name, props⟩ } else n) }, ?_, ?_, ?_⟩
    · rw [SystemGraph.add_node, if_neg (by simp [hfrozen]), if_pos hhas]
    · simp only [List.map_map]
      refine List.map_congr_left ?_
      intro a _
      show NodeEntry.id (if (a.id == id) = true then _ else a) = a.id
      split <;> rfl
    · rw [SystemGraph.get_node]
      exact find_map_replace id type name props g.nodes hhas
  · rfl

/-- Witness for C10 at a concrete unfrozen one-node graph. -/
theorem C10_witness :
    ∃ g2, (SystemGraph.mk [⟨"c", ⟨"component", "A", []⟩, [], []⟩] false).add_node
        "c" "database_table" "B" [("k", "v")] = .ok g2 ∧
      (g2.nodes.map NodeEntry.id) =
        ((SystemGraph.mk [⟨"c", ⟨"component", "A", []⟩, [], []⟩] false).nodes.map NodeEntry.id) ∧
      g2.get_node "c" = some ⟨"c", "database_table", "B", [("k", "v")]⟩ :=
  C10_add_node_overwrite.1 (SystemGraph.mk [⟨"c", ⟨"component", "A", []⟩, [], []⟩] false)
    "c" "database_table" "B" [("k", "v")] rfl (by decide)

/-! ### Reduction helpers for the Except monad -/

theorem exceptBind_ok {ε α β : Type} (a : α) (f : α → Except ε β) :
    (Except.ok a : Except ε α) >>= f = f a := rfl

theorem exceptBind_error {ε α β : Type} (e : ε) (f : α → Except ε β) :
    (Except.error e : Except ε α) >>= f = Except.error e := rfl

theorem exceptMap_ok {ε α β : Type} (a : α) (f : α → β) :
    (Except.ok a : Except ε α).map f = Except.ok (f a) := rfl

theorem convE_ok {α : Type} (a : α) : convE (.ok a) = (.ok a : Except BuildErr α) := rfl

/-! ### Claim C9 -/

/-- Plan of the end-to-end scenario: one frontend component with a calls
relationship carrying path /users and method GET to a backend component
with no api_endpoint resource. -/
def plan9 : PlanSchema :=
  { schema_version := "1.0", project_name := "demo",
    components :=
      [ ⟨"fe", "FE", "frontend", "/fe", [], []⟩,
        ⟨"be", "BE", "backend", "/be", [], []⟩ ],
    relationships := [⟨"fe", "be", "calls", [("path", "/users"), ("method", "GET")]⟩],
    env_vars := [] }

/-- C9: the plan compiles (the call targets an existing component id), the
full evaluator registry yields exactly one violation, FE_BE_001 on the
frontend caller, and the resulting DFR has passed false. -/
theorem C9_end_to_end (ENGINE_VERSION : String) :
    (Builder.build plan9).map (fun g =>
      ((run_evaluators g).map Violation.rule_id,
        (run_evaluators g).map Violation.offending_node,
        (generate_dfr ENGINE_VERSION plan9 (run_evaluators g)).passed)) =
    .ok (["FE_BE_001"], ["fe"], false) := by
  rfl

/-! ### Claim C6 -/

/-- C6: the mutator/freeze contract of the graph, and the query order for
node queries: mutators fail with the RuntimeError contract violation on a
frozen graph; add_edge on an unfrozen graph fails with a ValueError before
touching the graph when an endpoint is missing; freeze always leaves the
frozen flag set and every mutator fails afterwards; find_nodes_by_type is
the type filter of the insertion-ordered node list. -/
theorem C6_graph_contract :
    (∀ (g : SystemGraph) (id t n : String) (p : List (String × String)),
      g.frozen = true →
      g.add_node id t n p = .error (.runtimeError "Graph is frozen"))
    ∧ (∀ (g : SystemGraph) (s t k : String) (m : List (String × String)),
      g.frozen = true →
      g.add_edge s t k m = .error (.runtimeError "Graph is frozen"))
    ∧ (∀ (g : SystemGraph) (s t k : String) (m : List (String × String)),
      g.frozen = false → g.has_node s = false →
      g.add_edge s t k m = .error (.valueError ("Source node " ++ s ++ " does not exist")))
    ∧ (∀ (g : SystemGraph) (s t k : String) (m : List (String × String)),
      g.frozen = false → g.has_node s = true → g.has_node t = false →
      g.add_edge s t k m = .error (.valueError ("Target node " ++ t ++ " does not exist")))
    ∧ (∀ g : SystemGraph, (g.freeze).frozen = true)
    ∧ (∀ (g : SystemGraph) (id t n : String) (p : List (String × String)),
      (g.freeze).add_node id t n p = .error (.runtimeError "Graph is frozen"))
    ∧ (∀ (g : SystemGraph) (s t k : String) (m : List (String × String)),
      (g.freeze).add_edge s t k m = .error (.runtimeError "Graph is frozen"))
    ∧ (∀ (g : SystemGraph) (t : String),
      g.find_nodes_by_type t = g.nodeList.filter (fun n => n.type == t)) := by
  refine ⟨?_, ?_, ?_, ?_, ?_, ?_, ?_, ?_⟩
  · intro g id t n p h
    rw [SystemGraph.add_node, if_pos h]
  · intro g s t k m h
    rw [SystemGraph.add_edge, if_pos h]
  · intro g s t k m hf hs
    rw [SystemGraph.add_edge, if_neg (by simp [hf]), if_pos (by simp [hs])]
  · intro g s t k m hf hs ht
    rw [SystemGraph.add_edge, if_neg (by simp [hf]), if_neg (by simp [hs]),
      if_pos (by simp [ht])]
  · intro g
    rfl
  · intro g id t n p
    simp [SystemGraph.add_node, SystemGraph.freeze]
  · intro g s t k m
    simp [SystemGraph.add_edge, SystemGraph.freeze]
  · intro g t
    rw [SystemGraph.find_nodes_by_type, SystemGraph.nodeList]
    induction g.nodes with
    | nil => rfl
    | cons n rest ih =>
      rw [List.filter_cons, List.map_cons, List.filter_cons]
      have : (NodeEntry.data n).type = n.attrs.type := rfl
      rw [this]
      cases hn : n.attrs.type == t
      · simpa using ih
      · simpa using ih

/-- Witness for C6 at a concrete frozen two-node graph. -/
theorem C6_witness :
    ((SystemGraph.mk [⟨"a", ⟨"component", "A", []⟩, [], []⟩] true).add_node
        "b" "component" "B" [] = .error (.runtimeError "Graph is frozen"))
    ∧ ((SystemGraph.mk [⟨"a", ⟨"component", "A", []⟩, [], []⟩] false).add_edge
        "a" "missing" "calls" [] =
        .error (.valueError ("Target node " ++ "missing" ++ " does not exist"))) :=
  ⟨C6_graph_contract.1 _ "b" "component" "B" [] rfl,
    C6_graph_contract.2.2.2.1 _ "a" "missing" "calls" [] rfl (by decide) (by decide)⟩

/-- C6 as stated is false for the edge queries: after adding edges
u to v1 (calls), u to v2 (calls), u to v1 (reads) in that order to an
unfrozen graph with three nodes, find_outgoing_edges returns them grouped
by target neighbour — calls v1, reads v1, calls v2 — not in edge insertion
order, because networkx iterates the per-neighbour adjacency buckets. -/
theorem C6_counterexample :
    ((do
      let g := SystemGraph.empty
      let g ← g.add_node "u" "component" "U" []
      let g ← g.add_node "v1" "component" "V1" []
      let g ← g.add_node "v2" "component" "V2" []
      let g ← g.add_edge "u" "v1" "calls" []
      let g ← g.add_edge "u" "v2" "calls" []
      let g ← g.add_edge "u" "v1" "reads" []
      .ok g : Except PyErr SystemGraph).map
        (fun g => g.find_outgoing_edges "u" none) =
      .ok [⟨"u", "v1", "calls", []⟩, ⟨"u", "v1", "reads", []⟩, ⟨"u", "v2", "calls", []⟩])
    ∧ ([⟨"u", "v1", "calls", []⟩, ⟨"u", "v1", "reads", []⟩, ⟨"u", "v2", "calls", []⟩] :
        List EdgeData) ≠
      [⟨"u", "v1", "calls", []⟩, ⟨"u", "v2", "calls", []⟩, ⟨"u", "v1", "reads", []⟩] := by
  exact ⟨rfl, by decide⟩

/-! ### Claim C3: the UNIQUE_ENDPOINT scan -/

/-- Uppercased method of an api_endpoint node as the scan reads it. -/
def epMethod (n : NodeData) : String := strUpper (dgetD n.properties "method" "")

/-- Path of an api_endpoint node as the scan reads it. -/
def epPath (n : NodeData) : String := dgetD n.properties "path" ""

/-- Whether the scan registers the node: both method and path truthy. -/
def epActive (n : NodeData) : Bool :=
  decide (epMethod n ≠ "") && decide (epPath n ≠ "")

theorem uniqueScan_cons (node : NodeData) (rest : List NodeData)
    (routes : List ((String × String) × String)) :
    uniqueScan (node :: rest) routes =
      if epActive node then
        match routes.find? (fun r => r.1 == (epMethod node, epPath node)) with
        | some r => .error (.uniqueEndpoint (epMethod node) (epPath node) r.2 node.id)
        | none => uniqueScan rest (routes ++ [((epMethod node, epPath node), node.id)])
      else uniqueScan rest routes := rfl

/-- The scan either accepts or raises; the unit result is (). -/
theorem uniqueScan_ok_or_err (l : List NodeData)
    (routes : List ((String × String) × String)) :
    uniqueScan l routes = .ok () ∨ ∃ e, uniqueScan l routes = .error e := by
  cases h : uniqueScan l routes with
  | ok u => cases u; exact Or.inl rfl
  | error e => exact Or.inr ⟨e, rfl⟩

/-- An active node whose key is already present in the routes table makes
the scan fail. -/
theorem uniqueScan_mem_routes_err :
    ∀ (l : List NodeData) (routes : List ((String × String) × String)) (k : String × String),
    (routes.find? (fun r => r.1 == k)).isSome = true →
    (∃ l1 n l2, l = l1 ++ n :: l2 ∧ epActive n = true ∧ (epMethod n, epPath n) = k) →
    uniqueScan l routes ≠ .ok () := by
  intro l
  induction l with
  | nil =>
    rintro routes k _ ⟨l1, n, l2, hsplit, _, _⟩
    exact absurd hsplit (by simp)
  | cons x xs ih =>
    rintro routes k hmem ⟨l1, n, l2, hsplit, hact, hkey⟩
    rw [uniqueScan_cons]
    cases l1 with
    | nil =>
      simp only [List.nil_append, List.cons.injEq] at hsplit
      rw [← hsplit.1] at hact hkey
      rw [if_pos hact, hkey]
      rcases hf : routes.find? (fun r => r.1 == k) with hnone | r
      · rw [hf] at hmem; simp at hmem
      · rw [hf]; simp
    | cons y l1t =>
      simp only [List.cons_append, List.cons.injEq] at hsplit
      have hrest : ∃ l1 n l2, xs = l1 ++ n :: l2 ∧ epActive n = true ∧
          (epMethod n, epPath n) = k := ⟨l1t, n, l2, hsplit.2, hact, hkey⟩
      cases hax : epActive x with
      | false =>
        rw [if_neg (by simp [hax])]
        exact ih routes k hmem hrest
      | true =>
        rw [if_pos rfl]
        rcases hf : routes.find? (fun r => r.1 == (epMethod x, epPath x)) with hnone | r
        · have hmem2 : ((routes ++ [((epMethod x, epPath x), x.id)]).find?
              (fun r => r.1 == k)).isSome = true := by
            rw [List.find?_append]
            rcases hg : routes.find? (fun r => r.1 == k) with hnone2 | r2
            · rw [hg] at hmem; simp at hmem
            · rw [hg]; simp [Option.orElse]
          rw [hf]
          exact ih _ k hmem2 hrest
        · rw [hf]; simp

/-- Two active nodes with the same (uppercased method, path) key anywhere
in the scanned list make the scan fail, whatever the accumulator. -/
theorem uniqueScan_dup_err :
    ∀ (l : List NodeData) (routes : List ((String × String) × String)),
    (∃ l1 n1 l2 n2 l3, l = l1 ++ n1 :: l2 ++ n2 :: l3 ∧
      epActive n1 = true ∧ epActive n2 = true ∧
      epMethod n1 = epMethod n2 ∧ epPath n1 = epPath n2) →
    uniqueScan l routes ≠ .ok () := by
  intro l
  induction l with
  | nil =>
    rintro routes ⟨l1, n1, l2, n2, l3, hsplit, _⟩
    exact absurd hsplit (by simp)
  | cons x xs ih =>
    rintro routes ⟨l1, n1, l2, n2, l3, hsplit, hact1, hact2, hm, hp⟩
    rw [uniqueScan_cons]
    cases l1 with
    | nil =>
      rw [List.nil_append] at hsplit
      injection hsplit with hx hxs
      rw [← hx] at hact1 hm hp
      rw [if_pos hact1]
      rcases hf : routes.find? (fun r => r.1 == (epMethod x, epPath x)) with hnone | r
      · rw [hf]
        refine uniqueScan_mem_routes_err xs _ (epMethod x, epPath x) ?_ ?_
        · rw [List.find?_append, hf]
          simp [Option.orElse]
        · exact ⟨l2, n2, l3, hxs, hact2, by rw [← hm, ← hp]⟩
      · rw [hf]; simp
    | cons y l1t =>
      simp only [List.cons_append, List.cons.injEq] at hsplit
      have hrest : ∃ l1 n1 l2 n2 l3, xs = l1 ++ n1 :: l2 ++ n2 :: l3 ∧
          epActive n1 = true ∧ epActive n2 = true ∧
          epMethod n1 = epMethod n2 ∧ epPath n1 = epPath n2 :=
        ⟨l1t, n1, l2, n2, l3, hsplit.2, hact1, hact2, hm, hp⟩
      cases hax : epActive x with
      | false =>
        rw [if_neg (by simp)]
        exact ih routes hrest
      | true =>
        rw [if_pos rfl]
        rcases hf : routes.find? (fun r => r.1 == (epMethod x, epPath x)) with hnone | r
        · rw [hf]
          exact ih _ hrest
        · rw [hf]; simp

/-- Error soundness of the scan: any scan error is a UNIQUE_ENDPOINT
failure whose second named id is an active node of the list with the
reported key, and whose first named id comes from the accumulator or an
earlier active node with the same key. -/
theorem uniqueScan_err_spec :
    ∀ (l : List NodeData) (routes : List ((String × String) × String)) (e : BuildErr),
    uniqueScan l routes = .error e →
    ∃ m p a b, e = .uniqueEndpoint m p a b ∧
      (∃ l1 n2 l3, l = l1 ++ n2 :: l3 ∧ epActive n2 = true ∧
        epMethod n2 = m ∧ epPath n2 = p ∧ n2.id = b ∧
        (((m, p), a) ∈ routes ∨
          ∃ l1a n1 l1b, l1 = l1a ++ n1 :: l1b ∧ epActive n1 = true ∧
            epMethod n1 = m ∧ epPath n1 = p ∧ n1.id = a)) := by
  intro l
  induction l with
  | nil => intro routes e h; rw [uniqueScan] at h; exact absurd h (by simp)
  | cons x xs ih =>
    intro routes e h
    rw [uniqueScan_cons] at h
    cases hax : epActive x with
    | false =>
      rw [hax, if_neg (by simp)] at h
      rcases ih routes e h with ⟨m, p, a, b, he, l1, n2, l3, hsplit, hrest⟩
      exact ⟨m, p, a, b, he, x :: l1, n2, l3, by rw [hsplit]; rfl, hrest.1, hrest.2.1,
        hrest.2.2.1, hrest.2.2.2.1, by
          rcases hrest.2.2.2.2 with hr | ⟨l1a, n1, l1b, hs1, hrr⟩
          · exact Or.inl hr
          · exact Or.inr ⟨x :: l1a, n1, l1b, by rw [hs1]; rfl, hrr⟩⟩
    | true =>
      rw [hax, if_pos rfl] at h
      rcases hf : routes.find? (fun r => r.1 == (epMethod x, epPath x)) with hnone | r
      · rw [hf] at h
        rcases ih _ e h with ⟨m, p, a, b, he, l1, n2, l3, hsplit, hact2, hm2, hp2, hid2, hprov⟩
        refine ⟨m, p, a, b, he, x :: l1, n2, l3, by rw [hsplit]; rfl, hact2, hm2, hp2, hid2, ?_⟩
        rcases hprov with hr | ⟨l1a, n1, l1b, hs1, hrr⟩
        · rcases List.mem_append.mp hr with hr1 | hr2
          · exact Or.inl hr1
          · simp only [List.mem_singleton, Prod.mk.injEq] at hr2
            exact Or.inr ⟨[], x, l1, rfl, hax, hr2.1.1.symm, hr2.1.2.symm, hr2.2.symm⟩
        · exact Or.inr ⟨x :: l1a, n1, l1b, by rw [hs1]; rfl, hrr⟩
      · rw [hf] at h
        have he : e = .uniqueEndpoint (epMethod x) (epPath x) r.2 x.id := by
          simp only [Except.error.injEq] at h
          exact h.symm
        have hr1 : r.1 = (epMethod x, epPath x) := by
          have := List.find?_some hf
          exact eq_of_beq this
        refine ⟨epMethod x, epPath x, r.2, x.id, he, [], x, xs, rfl, hax, rfl, rfl, rfl, ?_⟩
        refine Or.inl ?_
        have hmem := List.mem_of_find?_eq_some hf
        rw [← hr1]
        rcases r with ⟨rk, ra⟩
        exact hmem

/-- All failures of the calls-edge check are NO_AMBIGUOUS_ROUTE failures. -/
theorem checkCallsEdge_err (g : SystemGraph) (edge : EdgeData) (er : BuildErr)
    (h : checkCallsEdge g edge = .error er) :
    ∃ p tn c, er = .noAmbiguousRoute p tn c := by
  simp only [checkCallsEdge] at h
  repeat' split at h
  all_goals
    first
      | (simp only [Except.error.injEq] at h
         exact ⟨_, _, _, h.symm⟩)
      | exact absurd h (by simp)

/-- A failing check sequence fails on some list element. -/
theorem scanE_err {α : Type} (f : α → Except BuildErr Unit) :
    ∀ (l : List α) (e : BuildErr), scanE f l = .error e → ∃ x ∈ l, f x = .error e := by
  intro l
  induction l with
  | nil => intro e h; rw [scanE] at h; exact absurd h (by simp)
  | cons x xs ih =>
    intro e h
    rw [scanE] at h
    cases hfx : f x with
    | error e2 =>
      rw [hfx, exceptBind_error] at h
      simp only [Except.error.injEq] at h
      exact ⟨x, by simp, by rw [hfx, h]⟩
    | ok u =>
      cases u
      rw [hfx, exceptBind_ok] at h
      rcases ih e h with ⟨y, hy, hfy⟩
      exact ⟨y, by simp [hy], hfy⟩

/-- Builder.build as the explicit composition of its phases. -/
theorem build_eq (plan : PlanSchema) :
    Builder.build plan =
      buildComponents SystemGraph.empty plan.components >>= fun g1 =>
      buildRelationships g1 plan.relationships >>= fun g =>
      reject_ambiguity g >>= fun _ => .ok g.freeze := rfl

/-- C3 amended: provided the node and edge phases of the build succeed and
produce graph g, Builder.build fails with a UNIQUE_ENDPOINT failure if and
only if two api_endpoint nodes of g, both with non-empty method and
non-empty path, share the same (uppercased method, path) pair; and any
UNIQUE_ENDPOINT failure names the uppercased method, the path and the ids
of two such conflicting nodes, earlier one first. -/
theorem C3_uniqueEndpoint_iff (plan : PlanSchema) (g1 g : SystemGraph)
    (h1 : buildComponents SystemGraph.empty plan.components = .ok g1)
    (h2 : buildRelationships g1 plan.relationships = .ok g) :
    ((∃ m p a b, Builder.build plan = .error (.uniqueEndpoint m p a b)) ↔
      ∃ l1 n1 l2 n2 l3,
        g.find_nodes_by_type "api_endpoint" = l1 ++ n1 :: l2 ++ n2 :: l3 ∧
        epActive n1 = true ∧ epActive n2 = true ∧
        epMethod n1 = epMethod n2 ∧ epPath n1 = epPath n2)
    ∧ (∀ m p a b, Builder.build plan = .error (.uniqueEndpoint m p a b) →
      ∃ l1 n1 l2 n2 l3,
        g.find_nodes_by_type "api_endpoint" = l1 ++ n1 :: l2 ++ n2 :: l3 ∧
        epActive n1 = true ∧ epActive n2 = true ∧
        epMethod n1 = m ∧ epPath n1 = p ∧ epMethod n2 = m ∧ epPath n2 = p ∧
        n1.id = a ∧ n2.id = b) := by
  have hb : Builder.build plan = reject_ambiguity g >>= fun _ => .ok g.freeze := by
    rw [build_eq, h1, exceptBind_ok, h2, exceptBind_ok]
  have hr : reject_ambiguity g =
      uniqueScan (g.find_nodes_by_type "api_endpoint") [] >>= fun _ =>
        scanE (checkCallsEdge g) g.edges := rfl
  rcases uniqueScan_ok_or_err (g.find_nodes_by_type "api_endpoint") [] with hok | ⟨e, herr⟩
  · have hbuild2 : Builder.build plan =
        scanE (checkCallsEdge g) g.edges >>= fun _ => .ok g.freeze := by
      rw [hb, hr, hok, exceptBind_ok]
    have hnoue : ∀ m p a b, Builder.build plan ≠ .error (.uniqueEndpoint m p a b) := by
      intro m p a b hcon
      rw [hbuild2] at hcon
      cases hscan : scanE (checkCallsEdge g) g.edges with
      | ok u =>
        rw [hscan, exceptBind_ok] at hcon
        exact absurd hcon (by simp)
      | error e2 =>
        rw [hscan, exceptBind_error] at hcon
        simp only [Except.error.injEq] at hcon
        rcases scanE_err _ _ _ hscan with ⟨x, _, hfx⟩
        rcases checkCallsEdge_err g x e2 hfx with ⟨p2, tn2, c2, he2⟩
        rw [he2] at hcon
        exact absurd hcon (by simp)
    constructor
    · constructor
      · rintro ⟨m, p, a, b, hcon⟩
        exact absurd hcon (hnoue m p a b)
      · rintro ⟨l1, n1, l2, n2, l3, hsplit, hact1, hact2, hm, hp⟩
        exact absurd hok (uniqueScan_dup_err _ []
          ⟨l1, n1, l2, n2, l3, hsplit, hact1, hact2, hm, hp⟩)
    · intro m p a b hcon
      exact absurd hcon (hnoue m p a b)
  · have hbuild2 : Builder.build plan = .error e := by
      rw [hb, hr, herr, exceptBind_error, exceptBind_error]
    rcases uniqueScan_err_spec _ _ _ herr with
      ⟨m, p, a, b, he, l1, n2, l3, hsplit, hact2, hm2, hp2, hid2, hprov⟩
    rcases hprov with hmem | ⟨l1a, n1, l1b, hl1, hact1, hm1, hp1, hid1⟩
    · exact absurd hmem (by simp)
    · have hsplit2 : g.find_nodes_by_type "api_endpoint" =
          l1a ++ n1 :: l1b ++ n2 :: l3 := by
        rw [hsplit, hl1]
      have hwit : ∃ l1 n1 l2 n2 l3,
          g.find_nodes_by_type "api_endpoint" = l1 ++ n1 :: l2 ++ n2 :: l3 ∧
          epActive n1 = true ∧ epActive n2 = true ∧
          epMethod n1 = m ∧ epPath n1 = p ∧ epMethod n2 = m ∧ epPath n2 = p ∧
          n1.id = a ∧ n2.id = b :=
        ⟨l1a, n1, l1b, n2, l3, hsplit2, hact1, hact2, hm1, hp1, hm2, hp2, hid1, hid2⟩
    
      constructor
      · constructor
        · intro _
          exact ⟨l1a, n1, l1b, n2, l3, hsplit2, hact1, hact2, by rw [hm1, hm2],
            by rw [hp1, hp2]⟩
        · intro _
          exact ⟨m, p, a, b, by rw [hbuild2, he]⟩
      · intro m3 p3 a3 b3 hcon
        rw [hbuild2, he] at hcon
        simp only [Except.error.injEq, BuildErr.uniqueEndpoint.injEq] at hcon
        rcases hwit with ⟨w1, wn1, w2, wn2, w3, hw⟩
        exact ⟨w1, wn1, w2, wn2, w3, hw.1, hw.2.1, hw.2.2.1,
          hcon.1 ▸ hw.2.2.2.1, hcon.2.1 ▸ hw.2.2.2.2.1,
          hcon.1 ▸ hw.2.2.2.2.2.1, hcon.2.1 ▸ hw.2.2.2.2.2.2.1,
          hcon.2.2.1 ▸ hw.2.2.2.2.2.2.2.1, hcon.2.2.2 ▸ hw.2.2.2.2.2.2.2.2⟩

/-- Plan with two api_endpoint resources sharing the pair of an empty
method and the path /u. -/
def plan3 : PlanSchema :=
  { schema_version := "1.0", project_name := "p",
    components :=
      [ { id := "be", name := "BE", type := "backend", path := "/be",
          resources :=
            [ ⟨"e1", "api_endpoint", "E1", none, [("method", ""), ("path", "/u")]⟩,
              ⟨"e2", "api_endpoint", "E2", none, [("method", ""), ("path", "/u")]⟩ ],
          dependencies := [] } ],
    relationships := [], env_vars := [] }

/-- C3 as stated is false: the two api_endpoint nodes of plan3 share the
pair (method uppercased, path) = (empty, /u), yet the build succeeds
instead of failing with UNIQUE_ENDPOINT, because the scan skips nodes
whose method or path is empty. -/
theorem C3_counterexample :
    (Builder.build plan3).isOk = true
    ∧ ((Builder.build plan3).map (fun g =>
        (g.find_nodes_by_type "api_endpoint").map (fun n =>
          (n.id, strUpper (dgetD n.properties "method" ""), dgetD n.properties "path" ""))))
      = .ok [("e1", "", "/u"), ("e2", "", "/u")]
    ∧ ("e1" : String) ≠ "e2" :=
  ⟨rfl, rfl, by decide⟩

/-- Plan with two api_endpoint resources sharing (GET, /u). -/
def plan3b : PlanSchema :=
  { schema_version := "1.0", project_name := "p",
    components :=
      [ { id := "be", name := "BE", type := "backend", path := "/be",
          resources :=
            [ ⟨"e1", "api_endpoint", "E1", none, [("method", "get"), ("path", "/u")]⟩,
              ⟨"e2", "api_endpoint", "E2", none, [("method", "GET"), ("path", "/u")]⟩ ],
          dependencies := [] } ],
    relationships := [], env_vars := [] }

/-- Unfrozen graph after the node and edge phases of plan3b. -/
def plan3bGraph : SystemGraph :=
  { nodes :=
      [ { id := "be",
          attrs := ⟨"component", "BE", [("path", "/be"), ("comp_type", "backend")]⟩,
          succ := [("e1", [⟨"contains", []⟩]), ("e2", [⟨"contains", []⟩])],
          pred := [] },
        { id := "e1",
          attrs := ⟨"api_endpoint", "E1", [("method", "get"), ("path", "/u")]⟩,
          succ := [], pred := [("be", [⟨"contains", []⟩])] },
        { id := "e2",
          attrs := ⟨"api_endpoint", "E2", [("method", "GET"), ("path", "/u")]⟩,
          succ := [], pred := [("be", [⟨"contains", []⟩])] } ],
    frozen := false }

/-- Witness for C3 at plan3b, whose build fails with UNIQUE_ENDPOINT
naming GET, /u and the ids e1, e2. -/
theorem C3_witness :
    ∃ l1 n1 l2 n2 l3,
      (plan3bGraph.find_nodes_by_type "api_endpoint") = l1 ++ n1 :: l2 ++ n2 :: l3 ∧
      epActive n1 = true ∧ epActive n2 = true ∧
      epMethod n1 = epMethod n2 ∧ epPath n1 = epPath n2 :=
  ((C3_uniqueEndpoint_iff plan3b plan3bGraph plan3bGraph rfl rfl).1).mp
    ⟨"GET", "/u", "e1", "e2", rfl⟩

/-! ### Claim C7: the NO_AMBIGUOUS_ROUTE check -/

/-- Full characterization of a failing calls-edge check: the edge is a
calls edge with a truthy path, its target resolves to a component node,
more than one candidate child matches, and the error names the path, the
target component name and the candidate ids. -/
theorem checkCallsEdge_error_iff (g : SystemGraph) (e : EdgeData) (er : BuildErr) :
    checkCallsEdge g e = .error er ↔
      (e.type = "calls" ∧ ∃ tn, g.get_node e.target = some tn ∧
        ∃ p, callPathOf e = some p ∧ ¬(p = "") ∧ tn.type = "component" ∧
          (routeCandidates g tn.id p (callMethodOf e)).length > 1 ∧
          er = .noAmbiguousRoute p tn.name
            ((routeCandidates g tn.id p (callMethodOf e)).map NodeData.id)) := by
  constructor
  · intro h
    simp only [checkCallsEdge] at h
    split at h
    case isFalse hty => exact absurd h (by simp)
    case isTrue hty =>
    have hty2 : e.type = "calls" := eq_of_beq hty
    refine ⟨hty2, ?_⟩
    split at h
    case h_1 => exact absurd h (by simp)
    case h_2 tn htn =>
    refine ⟨tn, htn, ?_⟩
    split at h
    case h_2 => exact absurd h (by simp)
    case h_1 p hp =>
    split at h
    case isFalse => exact absurd h (by simp)
    case isTrue hcond =>
    rw [Bool.and_eq_true] at hcond
    split at h
    case isFalse => exact absurd h (by simp)
    case isTrue hlen =>
    simp only [Except.error.injEq] at h
    refine ⟨p, hp, ?_, eq_of_beq hcond.2, ?_, h.symm⟩
    · have := hcond.1
      simpa using this
    · exact hlen
  · rintro ⟨hty, tn, htn, p, hp, hpne, htyp, hlen, her⟩
    simp only [checkCallsEdge]
    rw [if_pos (by simp [hty])]
    rw [show g.get_node e.target = some tn from htn]
    simp only
    rw [show callPathOf e = some p from hp]
    simp only
    rw [if_pos (by simp [hpne, htyp]), if_pos hlen, her]

/-- The check sequence succeeds exactly when every element passes. -/
theorem scanE_ok_iff {α : Type} (f : α → Except BuildErr Unit) :
    ∀ l : List α, scanE f l = .ok () ↔ ∀ x ∈ l, f x = .ok () := by
  intro l
  induction l with
  | nil => simp [scanE]
  | cons x xs ih =>
    rw [scanE]
    constructor
    · intro h
      cases hfx : f x with
      | error e2 => rw [hfx, exceptBind_error] at h; exact absurd h (by simp)
      | ok u =>
        cases u
        rw [hfx, exceptBind_ok] at h
        intro y hy
        rcases List.mem_cons.mp hy with hh | hh
        · rw [hh]; exact hfx
        · exact (ih.mp h) y hh
    · intro h
      rw [h x (by simp), exceptBind_ok]
      exact ih.mpr (fun y hy => h y (by simp [hy]))

/-- C7 amended: provided the node and edge phases produce graph g and the
UNIQUE_ENDPOINT scan passes (it runs first and masks the route check
otherwise), Builder.build fails with NO_AMBIGUOUS_ROUTE iff some calls
edge with a truthy path metadata targets a component node for which more
than one contains-child api_endpoint matches the call path (restricted to
case-insensitive method matches when the call has a truthy, non-empty
method, all path-matching children otherwise — this is routeCandidates);
the failure
names the ambiguous path, the target component name and all candidate ids. -/
theorem C7_noAmbiguousRoute_iff (plan : PlanSchema) (g1 g : SystemGraph)
    (h1 : buildComponents SystemGraph.empty plan.components = .ok g1)
    (h2 : buildRelationships g1 plan.relationships = .ok g)
    (hue : uniqueScan (g.find_nodes_by_type "api_endpoint") [] = .ok ()) :
    ((∃ p tn c, Builder.build plan = .error (.noAmbiguousRoute p tn c)) ↔
      ∃ e ∈ g.edges, e.type = "calls" ∧ ∃ nd, g.get_node e.target = some nd ∧
        nd.type = "component" ∧ ∃ p, callPathOf e = some p ∧ ¬(p = "") ∧
          (routeCandidates g nd.id p (callMethodOf e)).length > 1)
    ∧ (∀ p tn c, Builder.build plan = .error (.noAmbiguousRoute p tn c) →
      ∃ e ∈ g.edges, e.type = "calls" ∧ ∃ nd, g.get_node e.target = some nd ∧
        nd.type = "component" ∧ nd.name = tn ∧ callPathOf e = some p ∧ ¬(p = "") ∧
        (routeCandidates g nd.id p (callMethodOf e)).map NodeData.id = c ∧
        (routeCandidates g nd.id p (callMethodOf e)).length > 1) := by
  have hbuild2 : Builder.build plan =
      scanE (checkCallsEdge g) g.edges >>= fun _ => .ok g.freeze := by
    rw [build_eq, h1, exceptBind_ok, h2, exceptBind_ok,
      show reject_ambiguity g =
        (uniqueScan (g.find_nodes_by_type "api_endpoint") [] >>= fun _ =>
          scanE (checkCallsEdge g) g.edges) from rfl,
      hue]
    rw [show ((Except.ok () >>= fun _ => scanE (checkCallsEdge g) g.edges) >>=
        fun _ => (.ok g.freeze : Except BuildErr SystemGraph)) =
      (scanE (checkCallsEdge g) g.edges >>= fun _ => .ok g.freeze) from rfl]
  cases hscan : scanE (checkCallsEdge g) g.edges with
  | ok u =>
    cases u
    have hbuild3 : Builder.build plan = .ok g.freeze := by
      rw [hbuild2, hscan, exceptBind_ok]
    constructor
    · constructor
      · rintro ⟨p, tn, c, hcon⟩
        rw [hbuild3] at hcon
        exact absurd hcon (by simp)
      · rintro ⟨e, hmem, hty, nd, htn, htyp, p, hp, hpne, hlen⟩
        have hok := (scanE_ok_iff (checkCallsEdge g) g.edges).mp hscan e hmem
        have herr : checkCallsEdge g e = .error (.noAmbiguousRoute p nd.name
            ((routeCandidates g nd.id p (callMethodOf e)).map NodeData.id)) :=
          (checkCallsEdge_error_iff g e _).mpr
            ⟨hty, nd, htn, p, hp, hpne, htyp, hlen, rfl⟩
        rw [hok] at herr
        exact absurd herr (by simp)
    · intro p tn c hcon
      rw [hbuild3] at hcon
      exact absurd hcon (by simp)
  | error e2 =>
    have hbuild3 : Builder.build plan = .error e2 := by
      rw [hbuild2, hscan, exceptBind_error]
    rcases scanE_err _ _ _ hscan with ⟨x, hmem, hfx⟩
    rcases (checkCallsEdge_error_iff g x e2).mp hfx with
      ⟨hty, nd, htn, p, hp, hpne, htyp, hlen, he2⟩
    constructor
    · constructor
      · intro _
        exact ⟨x, hmem, hty, nd, htn, htyp, p, hp, hpne, hlen⟩
      · intro _
        exact ⟨p, nd.name, _, by rw [hbuild3, he2]⟩
    · intro p3 tn3 c3 hcon
      rw [hbuild3, he2] at hcon
      simp only [Except.error.injEq, BuildErr.noAmbiguousRoute.injEq] at hcon
      exact ⟨x, hmem, hty, nd, htn, htyp, hcon.2.1 ▸ rfl, hcon.1 ▸ hp,
        hcon.1 ▸ hpne, by rw [← hcon.2.2, ← hcon.1], hcon.1 ▸ hlen⟩

/-- Plan with an ambiguous no-method call whose two matching children also
collide on (GET, /users). -/
def plan7 : PlanSchema :=
  { schema_version := "1.0", project_name := "p",
    components :=
      [ ⟨"fe", "FE", "frontend", "/fe", [], []⟩,
        { id := "be", name := "BE", type := "backend", path := "/be",
          resources :=
            [ ⟨"e1", "api_endpoint", "E1", none, [("method", "GET"), ("path", "/users")]⟩,
              ⟨"e2", "api_endpoint", "E2", none, [("method", "GET"), ("path", "/users")]⟩ ],
          dependencies := [] } ],
    relationships := [⟨"fe", "be", "calls", [("path", "/users")]⟩],
    env_vars := [] }

/-- C7 as stated is false: in plan7 the no-method call to /users has two
matching candidate children, yet the build does not fail with
NO_AMBIGUOUS_ROUTE — the UNIQUE_ENDPOINT pass runs first and wins. -/
theorem C7_counterexample :
    Builder.build plan7 = .error (.uniqueEndpoint "GET" "/users" "e1" "e2")
    ∧ ((buildComponents SystemGraph.empty plan7.components >>= fun g1 =>
        buildRelationships g1 plan7.relationships).map (fun g =>
          ((g.get_node "be").map NodeData.type,
            (routeCandidates g "be" "/users" none).length,
            (g.edges.filter (fun e => e.type == "calls")).map callPathOf)) =
        .ok (some "component", 2, [some "/users"]))
    ∧ (∀ p tn c, Builder.build plan7 ≠ .error (.noAmbiguousRoute p tn c)) := by
  refine ⟨rfl, rfl, ?_⟩
  intro p tn c hcon
  rw [show Builder.build plan7 =
    .error (.uniqueEndpoint "GET" "/users" "e1" "e2") from rfl] at hcon
  exact absurd hcon (by simp)

/-- Plan of the spec example: GET and POST children at /users, called
without a method. -/
def plan7b : PlanSchema :=
  { schema_version := "1.0", project_name := "p",
    components :=
      [ ⟨"fe", "FE", "frontend", "/fe", [], []⟩,
        { id := "be", name := "BE", type := "backend", path := "/be",
          resources :=
            [ ⟨"e1", "api_endpoint", "E1", none, [("method", "GET"), ("path", "/users")]⟩,
              ⟨"e2", "api_endpoint", "E2", none, [("method", "POST"), ("path", "/users")]⟩ ],
          dependencies := [] } ],
    relationships := [⟨"fe", "be", "calls", [("path", "/users")]⟩],
    env_vars := [] }

/-- Graph after the component phase of plan7b. -/
def plan7bG1 : SystemGraph :=
  { nodes :=
      [ { id := "fe", attrs := ⟨"component", "FE", [("path", "/fe"), ("comp_type", "frontend")]⟩,
          succ := [], pred := [] },
        { id := "be", attrs := ⟨"component", "BE", [("path", "/be"), ("comp_type", "backend")]⟩,
          succ := [("e1", [⟨"contains", []⟩]), ("e2", [⟨"contains", []⟩])], pred := [] },
        { id := "e1", attrs := ⟨"api_endpoint", "E1", [("method", "GET"), ("path", "/users")]⟩,
          succ := [], pred := [("be", [⟨"contains", []⟩])] },
        { id := "e2", attrs := ⟨"api_endpoint", "E2", [("method", "POST"), ("path", "/users")]⟩,
          succ := [], pred := [("be", [⟨"contains", []⟩])] } ],
    frozen := false }

/-- Graph after the relationship phase of plan7b. -/
def plan7bGraph : SystemGraph :=
  { nodes :=
      [ { id := "fe", attrs := ⟨"component", "FE", [("path", "/fe"), ("comp_type", "frontend")]⟩,
          succ := [("be", [⟨"calls", [("path", "/users")]⟩])], pred := [] },
        { id := "be", attrs := ⟨"component", "BE", [("path", "/be"), ("comp_type", "backend")]⟩,
          succ := [("e1", [⟨"contains", []⟩]), ("e2", [⟨"contains", []⟩])],
          pred := [("fe", [⟨"calls", [("path", "/users")]⟩])] },
        { id := "e1", attrs := ⟨"api_endpoint", "E1", [("method", "GET"), ("path", "/users")]⟩,
          succ := [], pred := [("be", [⟨"contains", []⟩])] },
        { id := "e2", attrs := ⟨"api_endpoint", "E2", [("method", "POST"), ("path", "/users")]⟩,
          succ := [], pred := [("be", [⟨"contains", []⟩])] } ],
    frozen := false }

/-- Same plan but with an explicit empty method on the call: the source's
`if call_method:` guard treats the empty string as falsy and takes the
relaxed all-path-matching branch, so the call is still ambiguous. -/
def plan7c : PlanSchema :=
  { schema_version := "1.0", project_name := "p",
    components :=
      [ ⟨"fe", "FE", "frontend", "/fe", [], []⟩,
        { id := "be", name := "BE", type := "backend", path := "/be",
          resources :=
            [ ⟨"e1", "api_endpoint", "E1", none, [("method", "GET"), ("path", "/users")]⟩,
              ⟨"e2", "api_endpoint", "E2", none, [("method", "POST"), ("path", "/users")]⟩ ],
          dependencies := [] } ],
    relationships := [⟨"fe", "be", "calls", [("path", "/users"), ("method", "")]⟩],
    env_vars := [] }

/-- Witness for C7 at plan7b, whose build fails with NO_AMBIGUOUS_ROUTE
naming /users, the component BE and the candidates e1, e2; plan7c shows a
present but empty call method is falsy and keeps the ambiguity. -/
theorem C7_witness :
    (∃ e ∈ plan7bGraph.edges, e.type = "calls" ∧
      ∃ nd, plan7bGraph.get_node e.target = some nd ∧
        nd.type = "component" ∧ ∃ p, callPathOf e = some p ∧ ¬(p = "") ∧
          (routeCandidates plan7bGraph nd.id p (callMethodOf e)).length > 1)
    ∧ Builder.build plan7c = .error (.noAmbiguousRoute "/users" "BE" ["e1", "e2"]) :=
  ⟨((C7_noAmbiguousRoute_iff plan7b plan7bG1 plan7bGraph rfl rfl rfl).1).mp
    ⟨"/users", "BE", ["e1", "e2"], rfl⟩, rfl⟩

/-! ### Permutation invariance of the canonical list sort -/

theorem canonElems_eq_map (l : List Json) :
    canonElems l = l.map sort_lists_in_plan := by
  induction l with
  | nil => rfl
  | cons x xs ih => rw [canonElems, ih, List.map_cons]

theorem canonFields_eq_map (l : List (String × Json)) :
    canonFields l = l.map (fun p => (p.1, sort_lists_in_plan p.2)) := by
  induction l with
  | nil => rfl
  | cons x xs ih =>
    rcases x with ⟨k, v⟩
    rw [canonFields, ih, List.map_cons]

theorem pyLt_str (s t : String) : pyLt (.str s) (.str t) = some (strLtB s t) := rfl

/-- Whether a Json value is a string. -/
def Json.isStr : Json → Bool
  | .str _ => true
  | _ => false

theorem isStr_exists {v : Json} (h : v.isStr = true) : ∃ s, v = .str s := by
  cases v <;> simp [Json.isStr] at h ⊢

/-- Both branches of keyLeB on string keys reduce to the Python string
order. -/
theorem keyLeB_str {x y : Json} {sx sy : String}
    (hx : sortKey x = .str sx) (hy : sortKey y = .str sy) :
    keyLeB x y = !(strLtB sy sx) := by
  rw [keyLeB, hy, hx, pyLt_str]
  rfl

theorem allComparable_of_str {l : List Json}
    (h : ∀ x ∈ l, (sortKey x).isStr = true) : allComparable l = true := by
  rw [allComparable, List.all_eq_true]
  intro a ha
  rw [List.all_eq_true]
  intro b hb
  rcases isStr_exists (h a ha) with ⟨sa, hsa⟩
  rcases isStr_exists (h b hb) with ⟨sb, hsb⟩
  rw [hsa, hsb, pyLt_str]
  rfl

/-- The canonical list sort maps permuted lists with injective string sort
keys to the same result: both take the comparable branch and the stable
sort is unique on them. -/
theorem pySorted_eq_of_perm {m1 m2 : List Json} (hperm : m1.Perm m2)
    (hstr : ∀ x ∈ m1, (sortKey x).isStr = true)
    (hinj : ∀ x ∈ m1, ∀ y ∈ m1, sortKey x = sortKey y → x = y) :
    pySorted m1 = pySorted m2 := by
  have hstr2 : ∀ x ∈ m2, (sortKey x).isStr = true := fun x hx =>
    hstr x (hperm.mem_iff.mpr hx)
  rw [pySorted, pySorted, if_pos (allComparable_of_str hstr),
    if_pos (allComparable_of_str hstr2)]
  refine insSort_eq_of_perm hperm ?_ ?_ ?_
  · intro x hx y hy
    rcases isStr_exists (hstr x hx) with ⟨sx, hsx⟩
    rcases isStr_exists (hstr y hy) with ⟨sy, hsy⟩
    rw [keyLeB_str hsx hsy, keyLeB_str hsy hsx]
    rcases h : strLtB sy sx with hf | ht
    · simp
    · right
      rw [strLtB_asymm h]
      rfl
  · intro x hx y hy z hz hxy hyz
    rcases isStr_exists (hstr x hx) with ⟨sx, hsx⟩
    rcases isStr_exists (hstr y hy) with ⟨sy, hsy⟩
    rcases isStr_exists (hstr z hz) with ⟨sz, hsz⟩
    rw [keyLeB_str hsx hsy] at hxy
    rw [keyLeB_str hsy hsz] at hyz
    rw [keyLeB_str hsx hsz]
    rw [Bool.not_eq_true'] at hxy hyz ⊢
    rcases h : strLtB sz sx with hf | ht
    · rfl
    · exfalso
      rcases h2 : strLtB sy sz with h2f | h2t
      · rw [strLtB_conn hyz h2] at h
        rw [h] at hxy
        exact absurd hxy (by simp)
      · rw [strLtB_trans h2 h] at hxy
        exact absurd hxy (by simp)
  · intro x hx y hy hxy hyx
    rcases isStr_exists (hstr x hx) with ⟨sx, hsx⟩
    rcases isStr_exists (hstr y hy) with ⟨sy, hsy⟩
    rw [keyLeB_str hsx hsy, Bool.not_eq_true'] at hxy
    rw [keyLeB_str hsy hsx, Bool.not_eq_true'] at hyx
    refine hinj x hx y hy ?_
    rw [hsx, hsy, strLtB_conn hyx hxy]

/-! ### Claim C8 -/

/-- C8's contract clause is false: the integer 1 and the string 1 receive
the same sort key (their Python str is the same text), the stable sort
keeps them in input order, and the two permuted inputs serialize to
different bytes. -/
theorem C8_counterexample :
    canonicalize_json (.arr [.num 1, .str "1"]) ≠
      canonicalize_json (.arr [.str "1", .num 1])
    ∧ [Json.num 1, Json.str "1"].Perm [Json.str "1", Json.num 1] := by
  constructor
  · decide
  · exact .swap _ _ _

mutual

/-- Element-wise permutation at every list, recursively: scalars equal,
mapping fields kept in place with related values, list elements permuted. -/
inductive JPerm : Json → Json → Prop where
  | null : JPerm .null .null
  | bool (b : Bool) : JPerm (.bool b) (.bool b)
  | num (n : Int) : JPerm (.num n) (.num n)
  | str (s : String) : JPerm (.str s) (.str s)
  | arr {l1 l l2 : List Json} : JPermL l1 l → l2.Perm l → JPerm (.arr l1) (.arr l2)
  | obj {f1 f2 : List (String × Json)} : JPermF f1 f2 → JPerm (.obj f1) (.obj f2)

/-- Pointwise JPerm on list elements. -/
inductive JPermL : List Json → List Json → Prop where
  | nil : JPermL [] []
  | cons {x y : Json} {xs ys : List Json} :
      JPerm x y → JPermL xs ys → JPermL (x :: xs) (y :: ys)

/-- Pointwise JPerm on mapping fields: keys kept in place. -/
inductive JPermF : List (String × Json) → List (String × Json) → Prop where
  | nil : JPermF [] []
  | cons {k : String} {v w : Json} {xs ys : List (String × Json)} :
      JPerm v w → JPermF xs ys → JPermF ((k, v) :: xs) ((k, w) :: ys)

end

/-- The comparator le linearly orders the members of m: every pair is
le-related some way, mutually le-related members are equal, and le chains
compose. Decidable by pairwise and triple-wise scans. -/
def linearOk (le : Json → Json → Bool) (m : List Json) : Bool :=
  (m.all (fun x => m.all (fun y =>
    (le x y || le y x) && (!(le x y && le y x) || jbeq x y)))) &&
  (m.all (fun x => m.all (fun y => m.all (fun z =>
    !(le x y && le y z) || le x z))))

/-- The comparator pySorted actually uses linearly orders m: the id/str
key order in the comparable branch, the str(x) order in the fallback. -/
def sortedOkM (m : List Json) : Bool :=
  if allComparable m then linearOk keyLeB m else linearOk strKeyLeB m

/-- Determinism condition of one list node: the canonical elements are
linearly ordered by the branch the sort takes (distinct elements strictly
separated; e.g. mappings with distinct numeric or string ids). -/
def sortedOk (l : List Json) : Bool := sortedOkM (canonElems l)

mutual

/-- Every list in the document satisfies sortedOk, recursively. -/
def goodKeys : Json → Bool
  | .obj f => goodKeysF f
  | .arr l => sortedOk l && goodKeysL l
  | .null => true
  | .bool _ => true
  | .num _ => true
  | .str _ => true

def goodKeysL : List Json → Bool
  | [] => true
  | x :: xs => goodKeys x && goodKeysL xs

def goodKeysF : List (String × Json) → Bool
  | [] => true
  | (_, v) :: xs => goodKeys v && goodKeysF xs

end

theorem linearOk_total {le : Json → Json → Bool} {m : List Json}
    (h : linearOk le m = true) :
    ∀ x ∈ m, ∀ y ∈ m, le x y = true ∨ le y x = true := by
  rw [linearOk, Bool.and_eq_true] at h
  intro x hx y hy
  have hp := List.all_eq_true.mp (List.all_eq_true.mp h.1 x hx) y hy
  rw [Bool.and_eq_true] at hp
  simpa using hp.1

theorem linearOk_anti {le : Json → Json → Bool} {m : List Json}
    (h : linearOk le m = true) :
    ∀ x ∈ m, ∀ y ∈ m, le x y = true → le y x = true → x = y := by
  rw [linearOk, Bool.and_eq_true] at h
  intro x hx y hy hxy hyx
  have hp := List.all_eq_true.mp (List.all_eq_true.mp h.1 x hx) y hy
  rw [Bool.and_eq_true] at hp
  have h2 := hp.2
  rw [hxy, hyx] at h2
  simp at h2
  exact jbeq_eq x y h2

theorem linearOk_trans {le : Json → Json → Bool} {m : List Json}
    (h : linearOk le m = true) :
    ∀ x ∈ m, ∀ y ∈ m, ∀ z ∈ m, le x y = true → le y z = true → le x z = true := by
  rw [linearOk, Bool.and_eq_true] at h
  intro x hx y hy z hz hxy hyz
  have hp := List.all_eq_true.mp (List.all_eq_true.mp
    (List.all_eq_true.mp h.2 x hx) y hy) z hz
  rw [hxy, hyz] at hp
  simpa using hp

/-- Pair comparability reads only membership, so it is permutation
invariant. -/
theorem allComparable_perm {m1 m2 : List Json} (h : m1.Perm m2) :
    allComparable m1 = allComparable m2 := by
  have key : ∀ {a b : List Json}, a.Perm b → allComparable a = true →
      allComparable b = true := by
    intro a b hab hc
    rw [allComparable, List.all_eq_true] at hc ⊢
    intro x hx
    rw [List.all_eq_true]
    intro y hy
    exact List.all_eq_true.mp (hc x (hab.mem_iff.mpr hx)) y (hab.mem_iff.mpr hy)
  cases h1 : allComparable m1 with
  | true => exact (key h h1).symm
  | false =>
    cases h2 : allComparable m2 with
    | false => rfl
    | true => exact absurd (key h.symm h2) (by simp [h1])

/-- Whichever branch pySorted takes, a linearly ordered list sorts the
same as any permutation of it. -/
theorem pySorted_eq_sortedOk {m1 m2 : List Json} (hperm : m1.Perm m2)
    (hok : sortedOkM m1 = true) : pySorted m1 = pySorted m2 := by
  have hac := allComparable_perm hperm
  rw [sortedOkM] at hok
  rw [pySorted, pySorted]
  cases hc : allComparable m1 with
  | true =>
    rw [hc] at hok hac
    rw [if_pos rfl, if_pos hac.symm]
    simp only [if_pos rfl] at hok
    exact insSort_eq_of_perm hperm (linearOk_total hok) (linearOk_trans hok)
      (linearOk_anti hok)
  | false =>
    rw [hc] at hok hac
    rw [if_neg (by simp), if_neg (by simp [← hac])]
    simp only [Bool.false_eq_true, if_false] at hok
    exact insSort_eq_of_perm hperm (linearOk_total hok) (linearOk_trans hok)
      (linearOk_anti hok)

mutual

theorem canon_JPerm : ∀ a b : Json, JPerm a b → goodKeys a = true →
    sort_lists_in_plan a = sort_lists_in_plan b
  | _, _, .null, _ => rfl
  | _, _, .bool b, _ => rfl
  | _, _, .num n, _ => rfl
  | _, _, .str s, _ => rfl
  | _, _, @JPerm.obj f1 f2 hf, hg => by
    rw [sort_lists_in_plan, sort_lists_in_plan]
    rw [goodKeys] at hg
    rw [canon_JPermF f1 f2 hf hg]
  | _, _, @JPerm.arr l1 l l2 hl hperm, hg => by
    rw [goodKeys, Bool.and_eq_true] at hg
    rw [sort_lists_in_plan, sort_lists_in_plan]
    have hcl : canonElems l1 = canonElems l := canon_JPermL l1 l hl hg.2
    have hp2 : (canonElems l2).Perm (canonElems l1) := by
      rw [hcl, canonElems_eq_map, canonElems_eq_map]
      exact hperm.map _
    rw [pySorted_eq_sortedOk hp2.symm hg.1]

theorem canon_JPermL : ∀ xs ys : List Json, JPermL xs ys →
    goodKeysL xs = true → canonElems xs = canonElems ys
  | _, _, .nil, _ => rfl
  | _, _, @JPermL.cons x y xs ys hx hxs, hg => by
    rw [goodKeysL, Bool.and_eq_true] at hg
    rw [canonElems, canonElems, canon_JPerm x y hx hg.1,
      canon_JPermL xs ys hxs hg.2]

theorem canon_JPermF : ∀ xs ys : List (String × Json), JPermF xs ys →
    goodKeysF xs = true → canonFields xs = canonFields ys
  | _, _, .nil, _ => rfl
  | _, _, @JPermF.cons k v w xs ys hv hxs, hg => by
    rw [goodKeysF, Bool.and_eq_true] at hg
    rw [canonFields, canonFields, canon_JPerm v w hv hg.1,
      canon_JPermF xs ys hxs hg.2]

end

/-- C8 amended: the canonicalizer sorts mapping keys and stably sorts each
list by the raw id value of id-carrying mappings and by the Python str of
the element otherwise, falling back to sorting the whole list by str when
any key comparison raises; two documents that are element-wise
permutations of each other at every list serialize to identical bytes
provided every list's canonical elements are linearly ordered by the
comparator the sort takes — distinct siblings strictly separated, as
mappings with distinct numeric or string ids are — but not in general. -/
theorem C8_canonicalize_perm_invariant (j1 j2 : Json)
    (hperm : JPerm j1 j2) (hgood : goodKeys j1 = true) :
    canonicalize_json j1 = canonicalize_json j2 := by
  rw [canonicalize_json, canonicalize_json, canon_JPerm j1 j2 hperm hgood]

/-- A plan-like document: integer-id mappings, a string list and nested
lists. -/
def jW1 : Json :=
  .obj [("components", .arr [.obj [("id", .num 10)], .obj [("id", .num 2)]]),
        ("tags", .arr [.str "b", .str "a"]),
        ("matrix", .arr [.arr [.num 2, .num 1], .arr [.num 3]])]

/-- jW1 permuted at every list: components swapped, tags swapped, the
matrix rows swapped and the first row internally reversed. -/
def jW2 : Json :=
  .obj [("components", .arr [.obj [("id", .num 2)], .obj [("id", .num 10)]]),
        ("tags", .arr [.str "a", .str "b"]),
        ("matrix", .arr [.arr [.num 3], .arr [.num 1, .num 2]])]

/-- Witness for C8: jW2 permutes jW1 at every list (including a nested
one and mappings keyed by distinct integer ids) and canonicalizes to the
same bytes. -/
theorem C8_witness :
    JPerm jW1 jW2 ∧ goodKeys jW1 = true ∧
      canonicalize_json jW1 = canonicalize_json jW2 := by
  have hcomp : JPerm (.arr [.obj [("id", .num 10)], .obj [("id", .num 2)]])
      (.arr [.obj [("id", .num 2)], .obj [("id", .num 10)]]) :=
    .arr (.cons (.obj (.cons (.num 10) .nil))
        (.cons (.obj (.cons (.num 2) .nil)) .nil))
      (.swap _ _ _)
  have htags : JPerm (.arr [.str "b", .str "a"]) (.arr [.str "a", .str "b"]) :=
    .arr (.cons (.str "b") (.cons (.str "a") .nil)) (.swap _ _ _)
  have hrow : JPerm (.arr [.num 2, .num 1]) (.arr [.num 1, .num 2]) :=
    .arr (.cons (.num 2) (.cons (.num 1) .nil)) (.swap _ _ _)
  have hrow3 : JPerm (.arr [.num 3]) (.arr [.num 3]) :=
    .arr (.cons (.num 3) .nil) (List.Perm.refl _)
  have hmatrix : JPerm (.arr [.arr [.num 2, .num 1], .arr [.num 3]])
      (.arr [.arr [.num 3], .arr [.num 1, .num 2]]) :=
    .arr (.cons hrow (.cons hrow3 .nil)) (.swap _ _ _)
  have hp : JPerm jW1 jW2 :=
    .obj (.cons hcomp (.cons htags (.cons hmatrix .nil)))
  exact ⟨hp, by decide,
    C8_canonicalize_perm_invariant jW1 jW2 hp (by decide)⟩

/-! ### Injectivity of the Python repr on clean flat dicts -/

/-- Strings on which the repr model is character-exact: printable ASCII
without the single quote and the backslash. -/
def cleanStr (s : String) : Bool :=
  s.toList.all (fun c => 32 ≤ c.toNat && c.toNat < 127 && c != '\'' && c != '\\')

theorem cleanStr_no_quote {s : String} (h : cleanStr s = true) : '\'' ∉ s.toList := by
  intro hmem
  rw [cleanStr, List.all_eq_true] at h
  have := h '\'' hmem
  simp at this

/-- A quote-free segment followed by a quote determines itself and the
remainder. -/
theorem quoted_inj : ∀ (s1 s2 r1 r2 : List Char), '\'' ∉ s1 → '\'' ∉ s2 →
    s1 ++ '\'' :: r1 = s2 ++ '\'' :: r2 → s1 = s2 ∧ r1 = r2 := by
  intro s1
  induction s1 with
  | nil =>
    intro s2 r1 r2 _ h2 h
    cases s2 with
    | nil =>
      simp only [List.nil_append, List.cons.injEq] at h
      exact ⟨rfl, h.2⟩
    | cons c cs =>
      simp only [List.nil_append, List.cons_append, List.cons.injEq] at h
      exfalso
      apply h2
      rw [h.1]
      exact List.mem_cons_self c cs
  | cons c cs ih =>
    intro s2 r1 r2 h1 h2 h
    cases s2 with
    | nil =>
      simp only [List.cons_append, List.nil_append, List.cons.injEq] at h
      exfalso
      apply h1
      rw [← h.1]
      exact List.mem_cons_self c cs
    | cons d ds =>
      simp only [List.cons_append, List.cons.injEq] at h
      have htail := ih ds r1 r2 (fun hm => h1 (by simp [hm])) (fun hm => h2 (by simp [hm])) h.2
      exact ⟨by rw [h.1, htail.1], htail.2⟩

theorem pyRepr_str (s : String) : pyRepr (.str s) = '\'' :: s.toList ++ ['\''] := rfl

theorem pyRepr_obj (l : List (String × Json)) :
    pyRepr (.obj l) = '{' :: pyReprFields l ++ ['}'] := rfl

/-- Right-nested normal form of one serialized field with its separator. -/
theorem pyReprFields_cons (k : String) (v : Json) (rest : List (String × Json)) :
    pyReprFields ((k, v) :: rest) =
      '\'' :: (k.toList ++ '\'' :: ':' :: ' ' :: (pyRepr v ++
        (match rest with
         | [] => []
         | _ :: _ => ',' :: ' ' :: pyReprFields rest))) := by
  cases rest with
  | nil => simp [pyReprFields]
  | cons y ys => simp [pyReprFields]

/-- Fields whose keys are clean and whose values are clean strings. -/
def strFlatFields (m : List (String × Json)) : Prop :=
  ∀ p ∈ m, cleanStr p.1 = true ∧ ∃ s, p.2 = .str s ∧ cleanStr s = true

/-- Values allowed in a canonical relationship dict: clean strings or
string-valued clean dicts. -/
def flatVal (v : Json) : Prop :=
  (∃ s, v = .str s ∧ cleanStr s = true) ∨ ∃ m, v = .obj m ∧ strFlatFields m

/-- Fields whose keys are clean and whose values are flat. -/
def flatFields (l : List (String × Json)) : Prop :=
  ∀ p ∈ l, cleanStr p.1 = true ∧ flatVal p.2

theorem toList_inj {a b : String} (h : a.toList = b.toList) : a = b := by
  cases a with
  | mk da =>
    cases b with
    | mk db => exact congrArg String.mk h

/-- Peeling one serialized field: key and the remainder after the colon. -/
theorem field_peel {k1 k2 : String} {v1 v2 : Json} {X1 X2 : List Char}
    (hk1 : cleanStr k1 = true) (hk2 : cleanStr k2 = true)
    (h : '\'' :: (k1.toList ++ '\'' :: ':' :: ' ' :: (pyRepr v1 ++ X1)) =
         '\'' :: (k2.toList ++ '\'' :: ':' :: ' ' :: (pyRepr v2 ++ X2))) :
    k1 = k2 ∧ pyRepr v1 ++ X1 = pyRepr v2 ++ X2 := by
  injection h with hq h
  obtain ⟨hk, ht⟩ :=
    quoted_inj _ _ _ _ (cleanStr_no_quote hk1) (cleanStr_no_quote hk2) h
  injection ht with hcolon ht
  injection ht with hspace ht
  exact ⟨toList_inj hk, ht⟩

/-- Peeling a clean string value. -/
theorem strVal_peel {s1 s2 : String} {R1 R2 : List Char}
    (h1 : cleanStr s1 = true) (h2 : cleanStr s2 = true)
    (h : pyRepr (.str s1) ++ R1 = pyRepr (.str s2) ++ R2) : s1 = s2 ∧ R1 = R2 := by
  rw [pyRepr_str, pyRepr_str] at h
  simp only [List.cons_append, List.append_assoc, List.singleton_append] at h
  injection h with _ h
  obtain ⟨hs, hr⟩ :=
    quoted_inj _ _ _ _ (cleanStr_no_quote h1) (cleanStr_no_quote h2) h
  exact ⟨toList_inj hs, hr⟩

/-- Serialized string-valued clean dicts are prefix-determined up to a
terminator other than the quote and the comma. -/
theorem strFieldsRepr_inj :
    ∀ (m1 m2 : List (String × Json)) (c : Char) (r1 r2 : List Char),
    c ≠ '\'' → c ≠ ',' → strFlatFields m1 → strFlatFields m2 →
    pyReprFields m1 ++ c :: r1 = pyReprFields m2 ++ c :: r2 → m1 = m2 ∧ r1 = r2 := by
  intro m1
  induction m1 with
  | nil =>
    intro m2 c r1 r2 hc1 hc2 _ hf2 h
    cases m2 with
    | nil =>
      simp only [pyReprFields, List.nil_append, List.cons.injEq] at h
      exact ⟨rfl, h.2⟩
    | cons p2 rest2 =>
      rcases p2 with ⟨k2, v2⟩
      rw [pyReprFields_cons] at h
      simp only [pyReprFields, List.nil_append, List.cons_append, List.cons.injEq] at h
      exact absurd h.1 hc1
  | cons p1 rest1 ih =>
    intro m2 c r1 r2 hc1 hc2 hf1 hf2 h
    rcases p1 with ⟨k1, v1⟩
    cases m2 with
    | nil =>
      rw [pyReprFields_cons] at h
      simp only [pyReprFields, List.nil_append, List.cons_append, List.cons.injEq] at h
      exact absurd h.1.symm hc1
    | cons p2 rest2 =>
      rcases p2 with ⟨k2, v2⟩
      rw [pyReprFields_cons, pyReprFields_cons] at h
      simp only [List.cons_append, List.append_assoc] at h
      obtain ⟨hk1c0, s1, hv10, hs1c⟩ := hf1 (k1, v1) (by simp)
      obtain ⟨hk2c0, s2, hv20, hs2c⟩ := hf2 (k2, v2) (by simp)
      have hk1c : cleanStr k1 = true := hk1c0
      have hk2c : cleanStr k2 = true := hk2c0
      have hv1 : v1 = Json.str s1 := hv10
      have hv2 : v2 = Json.str s2 := hv20
      obtain ⟨hkeq, hval⟩ := field_peel hk1c hk2c h
      rw [hv1, hv2] at hval
      rw [← List.append_assoc, ← List.append_assoc] at hval
      have hval2 := hval
      rw [List.append_assoc, List.append_assoc] at hval2
      obtain ⟨hseq, hrest⟩ := strVal_peel hs1c hs2c hval2
      cases rest1 with
      | nil =>
        cases rest2 with
        | nil =>
          simp only [List.nil_append, List.cons.injEq] at hrest
          exact ⟨by rw [hkeq, hv1, hv2, hseq], hrest.2⟩
        | cons q2 t2 =>
          simp only [List.nil_append, List.cons_append, List.cons.injEq] at hrest
          exact absurd hrest.1 hc2
      | cons q1 t1 =>
        cases rest2 with
        | nil =>
          simp only [List.nil_append, List.cons_append, List.cons.injEq] at hrest
          exact absurd hrest.1.symm hc2
        | cons q2 t2 =>
          simp only [List.cons_append, List.cons.injEq] at hrest
          obtain ⟨heq, hr⟩ := ih (q2 :: t2) c r1 r2 hc1 hc2
            (fun p hp => hf1 p (by simp [hp]))
            (fun p hp => hf2 p (by simp [hp]))
            hrest.2.2
          exact ⟨by rw [hkeq, hv1, hv2, hseq, heq], hr⟩

/-- Peeling a string-valued clean dict value using the inner lemma. -/
theorem objVal_peel {m1 m2 : List (String × Json)} {R1 R2 : List Char}
    (h1 : strFlatFields m1) (h2 : strFlatFields m2)
    (h : pyRepr (.obj m1) ++ R1 = pyRepr (.obj m2) ++ R2) : m1 = m2 ∧ R1 = R2 := by
  rw [pyRepr_obj, pyRepr_obj] at h
  simp only [List.cons_append, List.append_assoc, List.singleton_append] at h
  injection h with hb h
  exact strFieldsRepr_inj m1 m2 _ R1 R2 (by decide) (by decide) h1 h2 h

/-- Peeling any flat value: clean string or string-valued clean dict. -/
theorem flatVal_peel {v1 v2 : Json} {R1 R2 : List Char}
    (h1 : flatVal v1) (h2 : flatVal v2)
    (h : pyRepr v1 ++ R1 = pyRepr v2 ++ R2) : v1 = v2 ∧ R1 = R2 := by
  rcases h1 with ⟨s1, hv1, hs1c⟩ | ⟨m1, hv1, hm1⟩
  · rcases h2 with ⟨s2, hv2, hs2c⟩ | ⟨m2, hv2, hm2⟩
    · rw [hv1, hv2] at h
      obtain ⟨hs, hr⟩ := strVal_peel hs1c hs2c h
      exact ⟨by rw [hv1, hv2, hs], hr⟩
    · rw [hv1, hv2, pyRepr_str, pyRepr_obj] at h
      simp only [List.cons_append, List.append_assoc] at h
      exact absurd (List.head_eq_of_cons_eq h) (by decide)
  · rcases h2 with ⟨s2, hv2, hs2c⟩ | ⟨m2, hv2, hm2⟩
    · rw [hv1, hv2, pyRepr_str, pyRepr_obj] at h
      simp only [List.cons_append, List.append_assoc] at h
      exact absurd (List.head_eq_of_cons_eq h) (by decide)
    · rw [hv1, hv2] at h
      obtain ⟨hm, hr⟩ := objVal_peel hm1 hm2 h
      exact ⟨by rw [hv1, hv2, hm], hr⟩

/-- Serialized flat dicts (string or string-dict values) are
prefix-determined up to a terminator other than the quote and the comma. -/
theorem flatFieldsRepr_inj :
    ∀ (l1 l2 : List (String × Json)) (c : Char) (r1 r2 : List Char),
    c ≠ '\'' → c ≠ ',' → flatFields l1 → flatFields l2 →
    pyReprFields l1 ++ c :: r1 = pyReprFields l2 ++ c :: r2 → l1 = l2 ∧ r1 = r2 := by
  intro l1
  induction l1 with
  | nil =>
    intro l2 c r1 r2 hc1 hc2 _ hf2 h
    cases l2 with
    | nil =>
      simp only [pyReprFields, List.nil_append, List.cons.injEq] at h
      exact ⟨rfl, h.2⟩
    | cons p2 rest2 =>
      rcases p2 with ⟨k2, v2⟩
      rw [pyReprFields_cons] at h
      simp only [pyReprFields, List.nil_append, List.cons_append, List.cons.injEq] at h
      exact absurd h.1 hc1
  | cons p1 rest1 ih =>
    intro l2 c r1 r2 hc1 hc2 hf1 hf2 h
    rcases p1 with ⟨k1, v1⟩
    cases l2 with
    | nil =>
      rw [pyReprFields_cons] at h
      simp only [pyReprFields, List.nil_append, List.cons_append, List.cons.injEq] at h
      exact absurd h.1.symm hc1
    | cons p2 rest2 =>
      rcases p2 with ⟨k2, v2⟩
      rw [pyReprFields_cons, pyReprFields_cons] at h
      simp only [List.cons_append, List.append_assoc] at h
      obtain ⟨hk1c0, hfv1⟩ := hf1 (k1, v1) (by simp)
      obtain ⟨hk2c0, hfv2⟩ := hf2 (k2, v2) (by simp)
      have hk1c : cleanStr k1 = true := hk1c0
      have hk2c : cleanStr k2 = true := hk2c0
      obtain ⟨hkeq0, hval⟩ := field_peel hk1c hk2c h
      have hkeq : k1 = k2 := hkeq0
      have hfv1b : flatVal v1 := hfv1
      have hfv2b : flatVal v2 := hfv2
      obtain ⟨hveq1, hrest⟩ := flatVal_peel hfv1b hfv2b hval
      cases rest1 with
      | nil =>
        cases rest2 with
        | nil =>
          simp only [List.nil_append, List.cons.injEq] at hrest
          exact ⟨by rw [hkeq, hveq1], hrest.2⟩
        | cons q2 t2 =>
          simp only [List.nil_append, List.cons_append, List.cons.injEq] at hrest
          exact absurd hrest.1 hc2
      | cons q1 t1 =>
        cases rest2 with
        | nil =>
          simp only [List.nil_append, List.cons_append, List.cons.injEq] at hrest
          exact absurd hrest.1.symm hc2
        | cons q2 t2 =>
          simp only [List.cons_append, List.cons.injEq] at hrest
          obtain ⟨heq, hr⟩ := ih (q2 :: t2) c r1 r2 hc1 hc2
            (fun p hp => hf1 p (by simp [hp]))
            (fun p hp => hf2 p (by simp [hp]))
            hrest.2.2
          exact ⟨by rw [hkeq, hveq1, heq], hr⟩

theorem pyStr_obj (l : List (String × Json)) : pyStr (.obj l) = pyRepr (.obj l) := rfl

/-- Injectivity of the Python str on flat clean dicts: the workhorse for
the relationship sort keys of the canonicalizer. -/
theorem pyStrS_obj_inj {l1 l2 : List (String × Json)}
    (h1 : flatFields l1) (h2 : flatFields l2)
    (h : pyStrS (.obj l1) = pyStrS (.obj l2)) : l1 = l2 := by
  rw [pyStrS, pyStrS, pyStr_obj, pyStr_obj, pyRepr_obj, pyRepr_obj] at h
  have hl : '{' :: pyReprFields l1 ++ ['}'] = '{' :: pyReprFields l2 ++ ['}'] := by
    have := congrArg String.toList h
    simpa using this
  simp only [List.cons_append, List.cons.injEq] at hl
  exact (flatFieldsRepr_inj l1 l2 '}' [] [] (by decide) (by decide) h1 h2 hl.2).1

/-! ### Claim C1: order independence of the plan hash -/

theorem nodup_map_inj {α β : Type} [DecidableEq β] {g : α → β} {l : List α}
    (h : (l.map g).Nodup) :
    ∀ a ∈ l, ∀ b ∈ l, g a = g b → a = b := by
  induction l with
  | nil => intro a ha; simp at ha
  | cons x xs ih =>
    intro a ha b hb hab
    rw [List.map_cons, List.nodup_cons] at h
    rcases List.mem_cons.mp ha with h1 | h1
    · rcases List.mem_cons.mp hb with h2 | h2
      · rw [h1, h2]
      · exfalso
        apply h.1
        rw [← h1, hab]
        exact List.mem_map.mpr ⟨b, h2, rfl⟩
    · rcases List.mem_cons.mp hb with h2 | h2
      · exfalso
        apply h.1
        rw [← h2, ← hab]
        exact List.mem_map.mpr ⟨a, h1, rfl⟩
      · exact ih h.2 a h1 b h2 hab

theorem canonFields_strMap (m : List (String × String)) :
    canonFields (m.map (fun p => (p.1, Json.str p.2))) =
      m.map (fun p => (p.1, Json.str p.2)) := by
  induction m with
  | nil => rfl
  | cons p rest ih =>
    rcases p with ⟨k, v⟩
    rw [List.map_cons, canonFields, ih]
    rfl

theorem sortKey_canonComp (c : Component) :
    sortKey (sort_lists_in_plan (Component.dump c)) = .str c.id := rfl

theorem sortKey_canonRes (r : Resource) :
    sortKey (sort_lists_in_plan (Resource.dump r)) = .str r.id := rfl

theorem sortKey_canonRel (r : Relationship) :
    sortKey (sort_lists_in_plan (Relationship.dump r)) =
      .str (pyStrS (sort_lists_in_plan (Relationship.dump r))) := rfl

theorem canonRel_shape (r : Relationship) :
    sort_lists_in_plan (Relationship.dump r) =
      .obj (insSort pairLeB (canonFields
        [("source", .str r.source), ("target", .str r.target), ("type", .str r.type),
         ("metadata", strMapJson r.metadata)])) := rfl

/-- Cleanliness of a relationship: every string in it is printable ASCII
without quote or backslash, the domain on which the repr model is exact. -/
def cleanRel (r : Relationship) : Bool :=
  cleanStr r.source && cleanStr r.target && cleanStr r.type &&
    r.metadata.all (fun p => cleanStr p.1 && cleanStr p.2)

theorem canonRel_flat {r : Relationship} (h : cleanRel r = true) :
    flatFields (insSort pairLeB (canonFields
      [("source", .str r.source), ("target", .str r.target), ("type", .str r.type),
       ("metadata", strMapJson r.metadata)])) := by
  rw [cleanRel, Bool.and_eq_true, Bool.and_eq_true, Bool.and_eq_true] at h
  obtain ⟨⟨⟨hs, ht⟩, hk⟩, hm⟩ := h
  intro p hp
  have hp2 := mem_insSort.mp hp
  simp only [canonFields, sort_lists_in_plan] at hp2
  have hmeta : strFlatFields (insSort pairLeB (canonFields
      (r.metadata.map (fun q => (q.1, Json.str q.2))))) := by
    intro q hq
    have hq2 := mem_insSort.mp hq
    rw [canonFields_strMap] at hq2
    rcases List.mem_map.mp hq2 with ⟨q0, hq0, hq0e⟩
    have := List.all_eq_true.mp hm q0 hq0
    rw [Bool.and_eq_true] at this
    rw [← hq0e]
    exact ⟨this.1, q0.2, rfl, this.2⟩
  rcases List.mem_cons.mp hp2 with he | hp3
  · rw [he]
    exact ⟨rfl, Or.inl ⟨r.source, rfl, hs⟩⟩
  rcases List.mem_cons.mp hp3 with he | hp4
  · rw [he]
    exact ⟨rfl, Or.inl ⟨r.target, rfl, ht⟩⟩
  rcases List.mem_cons.mp hp4 with he | hp5
  · rw [he]
    exact ⟨rfl, Or.inl ⟨r.type, rfl, hk⟩⟩
  rcases List.mem_cons.mp hp5 with he | hp6
  · rw [he]
    refine ⟨rfl, Or.inr ⟨insSort pairLeB (canonFields
      (r.metadata.map (fun q => (q.1, Json.str q.2)))), ?_, hmeta⟩⟩
    rfl
  · exact absurd hp6 (by simp)

theorem canon_str (s : String) : sort_lists_in_plan (.str s) = .str s := rfl

theorem canon_arr (l : List Json) :
    sort_lists_in_plan (.arr l) = .arr (pySorted (canonElems l)) := rfl

theorem canonComp_shape (c : Component) :
    sort_lists_in_plan (Component.dump c) =
      .obj (insSort pairLeB (canonFields
        [("id", .str c.id), ("name", .str c.name), ("type", .str c.type),
         ("path", .str c.path),
         ("resources", .arr (c.resources.map Resource.dump)),
         ("dependencies", .arr (c.dependencies.map Json.str))])) := rfl

theorem model_dump_shape (p : PlanSchema) :
    sort_lists_in_plan p.model_dump =
      .obj (insSort pairLeB (canonFields
        [("schema_version", .str p.schema_version),
         ("project_name", .str p.project_name),
         ("components", .arr (p.components.map Component.dump)),
         ("relationships", .arr (p.relationships.map Relationship.dump)),
         ("env_vars", strMapJson p.env_vars)])) := rfl

theorem canonRel_inj {r1 r2 : Relationship}
    (h1 : cleanRel r1 = true) (h2 : cleanRel r2 = true)
    (h : pyStrS (sort_lists_in_plan (Relationship.dump r1)) =
         pyStrS (sort_lists_in_plan (Relationship.dump r2))) :
    sort_lists_in_plan (Relationship.dump r1) =
      sort_lists_in_plan (Relationship.dump r2) := by
  rw [canonRel_shape r1, canonRel_shape r2] at h ⊢
  exact congrArg Json.obj (pyStrS_obj_inj (canonRel_flat h1) (canonRel_flat h2) h)

/-- Components equal field-for-field except that the resources list of the
second is a permutation of that of the first. -/
def CompPerm (c c2 : Component) : Prop :=
  c.id = c2.id ∧ c.name = c2.name ∧ c.type = c2.type ∧ c.path = c2.path ∧
    c.dependencies = c2.dependencies ∧ c2.resources.Perm c.resources

/-- Plans equal up to reordering of the components list, of each
component's resources list, and of the relationships list. -/
def PlanPerm (p1 p2 : PlanSchema) : Prop :=
  p1.schema_version = p2.schema_version ∧ p1.project_name = p2.project_name ∧
    p1.env_vars = p2.env_vars ∧ p2.relationships.Perm p1.relationships ∧
    ∃ cs, List.Forall₂ CompPerm p1.components cs ∧ p2.components.Perm cs

theorem canonComp_eq {c c2 : Component} (hp : CompPerm c c2)
    (hres : (c.resources.map Resource.id).Nodup) :
    sort_lists_in_plan (Component.dump c2) = sort_lists_in_plan (Component.dump c) := by
  obtain ⟨hid, hname, htype, hpath, hdeps, hperm⟩ := hp
  have key : pySorted (canonElems (c2.resources.map Resource.dump)) =
      pySorted (canonElems (c.resources.map Resource.dump)) := by
    rw [canonElems_eq_map, canonElems_eq_map, List.map_map, List.map_map]
    refine pySorted_eq_of_perm (hperm.map _) ?_ ?_
    · intro x hx
      rcases List.mem_map.mp hx with ⟨r, hr, hfr⟩
      rw [← hfr]
      rfl
    · intro x hx y hy hk
      rcases List.mem_map.mp hx with ⟨ra, hra, hfa⟩
      rcases List.mem_map.mp hy with ⟨rb, hrb, hfb⟩
      rw [← hfa, ← hfb] at hk ⊢
      have hids : Json.str ra.id = Json.str rb.id := hk
      have hide : ra.id = rb.id := by injection hids
      rw [nodup_map_inj hres ra (hperm.mem_iff.mp hra) rb (hperm.mem_iff.mp hrb) hide]
  rw [canonComp_shape c2, canonComp_shape c]
  simp only [canonFields, canon_str, canon_arr]
  rw [← hid, ← hname, ← htype, ← hpath, ← hdeps, key]

theorem map_canonComp_forall₂ {l1 l2 : List Component}
    (h : List.Forall₂ CompPerm l1 l2)
    (hres : ∀ c ∈ l1, (c.resources.map Resource.id).Nodup) :
    l2.map (sort_lists_in_plan ∘ Component.dump) =
      l1.map (sort_lists_in_plan ∘ Component.dump) := by
  induction h with
  | nil => rfl
  | cons hrel hrest ih =>
    rw [List.map_cons, List.map_cons,
        ih (fun c hc => hres c (List.mem_cons_of_mem _ hc))]
    have hcc := canonComp_eq hrel (hres _ (List.mem_cons_self _ _))
    simp only [Function.comp_apply]
    rw [hcc]

/-! The unrestricted claim fails when two reordered components share an id:
the canonical sort key of a component dict is its raw id value, the sort is
stable, and equal-key elements therefore stay in declaration order. -/

def compD1 : Component :=
  { id := "c", name := "A", type := "backend", path := "", resources := [],
    dependencies := [] }

def compD2 : Component :=
  { id := "c", name := "B", type := "backend", path := "", resources := [],
    dependencies := [] }

def planD1 : PlanSchema :=
  { schema_version := "1", project_name := "p", components := [compD1, compD2],
    relationships := [], env_vars := [] }

def planD2 : PlanSchema :=
  { schema_version := "1", project_name := "p", components := [compD2, compD1],
    relationships := [], env_vars := [] }

set_option maxRecDepth 100000 in
/-- C1 as stated is false: planD2 reorders the components list of planD1
without changing its contents, yet the two plan hashes differ, because the
two components share the id the canonical sort keys on and the stable sort
keeps them in declaration order. -/
theorem C1_counterexample :
    planD2.components.Perm planD1.components
    ∧ planD2.schema_version = planD1.schema_version
    ∧ planD2.project_name = planD1.project_name
    ∧ planD2.relationships = planD1.relationships
    ∧ planD2.env_vars = planD1.env_vars
    ∧ planHash planD1 ≠ planHash planD2 := by
  refine ⟨.swap _ _ _, rfl, rfl, rfl, rfl, ?_⟩
  decide

/-- C1, amended: permuting the components list, any component's resources
list, or the relationships list yields an identical plan hash, provided the
reordered siblings are told apart by their canonical sort keys: component
ids are pairwise distinct, resource ids are pairwise distinct within each
component (relationships are always told apart, by the repr of their whole
dict; the repr model is character-exact on clean printable-ASCII strings,
hence the cleanliness hypothesis). -/
theorem C1_plan_hash_order_independent (p1 p2 : PlanSchema)
    (hperm : PlanPerm p1 p2)
    (hcomp : (p1.components.map Component.id).Nodup)
    (hres : ∀ c ∈ p1.components, (c.resources.map Resource.id).Nodup)
    (hclean : ∀ r ∈ p1.relationships, cleanRel r = true) :
    planHash p1 = planHash p2 := by
  obtain ⟨hsv, hpn, henv, hrel, cs, hall, hpc⟩ := hperm
  have hcomps : pySorted (canonElems (p1.components.map Component.dump)) =
      pySorted (canonElems (p2.components.map Component.dump)) := by
    rw [canonElems_eq_map, canonElems_eq_map, List.map_map, List.map_map]
    have hmap := map_canonComp_forall₂ hall hres
    have hp2 : (p2.components.map (sort_lists_in_plan ∘ Component.dump)).Perm
        (p1.components.map (sort_lists_in_plan ∘ Component.dump)) := by
      rw [← hmap]
      exact hpc.map _
    refine pySorted_eq_of_perm hp2.symm ?_ ?_
    · intro x hx
      rcases List.mem_map.mp hx with ⟨c, hc, hfc⟩
      rw [← hfc]
      rfl
    · intro x hx y hy hk
      rcases List.mem_map.mp hx with ⟨ca, hca, hfa⟩
      rcases List.mem_map.mp hy with ⟨cb, hcb, hfb⟩
      rw [← hfa, ← hfb] at hk ⊢
      have hids : Json.str ca.id = Json.str cb.id := hk
      have hide : ca.id = cb.id := by injection hids
      rw [nodup_map_inj hcomp ca hca cb hcb hide]
  have hrels : pySorted (canonElems (p1.relationships.map Relationship.dump)) =
      pySorted (canonElems (p2.relationships.map Relationship.dump)) := by
    rw [canonElems_eq_map, canonElems_eq_map, List.map_map, List.map_map]
    refine pySorted_eq_of_perm ((hrel.map _).symm) ?_ ?_
    · intro x hx
      rcases List.mem_map.mp hx with ⟨r, hr, hfr⟩
      rw [← hfr]
      rfl
    · intro x hx y hy hk
      rcases List.mem_map.mp hx with ⟨ra, hra, hfa⟩
      rcases List.mem_map.mp hy with ⟨rb, hrb, hfb⟩
      rw [← hfa, ← hfb] at hk ⊢
      have hss : Json.str (pyStrS (sort_lists_in_plan (Relationship.dump ra))) =
          Json.str (pyStrS (sort_lists_in_plan (Relationship.dump rb))) := hk
      have hpp : pyStrS (sort_lists_in_plan (Relationship.dump ra)) =
          pyStrS (sort_lists_in_plan (Relationship.dump rb)) := by injection hss
      exact canonRel_inj (hclean ra hra) (hclean rb hrb) hpp
  have hcanon : sort_lists_in_plan p1.model_dump = sort_lists_in_plan p2.model_dump := by
    rw [model_dump_shape p1, model_dump_shape p2]
    simp only [canonFields, canon_str, canon_arr]
    rw [hsv, hpn, henv, hcomps, hrels]
  simp only [planHash]
  rw [hcanon]

def res1a : Resource :=
  { id := "r1", type := "database", name := "R1", description := none,
    properties := [("k", "v")] }

def res1b : Resource :=
  { id := "r2", type := "database", name := "R2", description := some "d",
    properties := [] }

def compW1 : Component :=
  { id := "c1", name := "C1", type := "backend", path := "src/a",
    resources := [res1a, res1b], dependencies := ["c2"] }

def compW1s : Component :=
  { id := "c1", name := "C1", type := "backend", path := "src/a",
    resources := [res1b, res1a], dependencies := ["c2"] }

def compW2 : Component :=
  { id := "c2", name := "C2", type := "frontend", path := "src/b",
    resources := [], dependencies := [] }

def relW1 : Relationship :=
  { source := "c2", target := "c1", type := "calls",
    metadata := [("path", "/users")] }

def relW2 : Relationship :=
  { source := "c1", target := "c1", type := "contains", metadata := [] }

def planW1 : PlanSchema :=
  { schema_version := "1.0", project_name := "proj",
    components := [compW1, compW2], relationships := [relW1, relW2],
    env_vars := [("E", "1")] }

def planW2 : PlanSchema :=
  { schema_version := "1.0", project_name := "proj",
    components := [compW2, compW1s], relationships := [relW2, relW1],
    env_vars := [("E", "1")] }

/-- Witness for the amended C1: planW2 permutes the components, the first
component's resources and the relationships of planW1, and their plan
hashes agree. -/
theorem C1_witness : PlanPerm planW1 planW2 ∧ planHash planW1 = planHash planW2 := by
  have hp : PlanPerm planW1 planW2 :=
    ⟨rfl, rfl, rfl, List.Perm.swap relW1 relW2 [],
     [compW1s, compW2],
     .cons ⟨rfl, rfl, rfl, rfl, rfl, List.Perm.swap res1a res1b []⟩
       (.cons ⟨rfl, rfl, rfl, rfl, rfl, List.Perm.refl _⟩ .nil),
     List.Perm.swap compW1s compW2 []⟩
  exact ⟨hp, C1_plan_hash_order_independent planW1 planW2 hp
    (by decide) (by decide) (by decide)⟩
